import Mathlib

/-!
Verification of the reactivity engine (Observer / Dep / array interceptor /
set / del) of this Vue fork.  The JavaScript heap is modelled explicitly:
values are primitives or references into a list of containers, each container
carries its own property slots, its optional attached Observer
(the hidden non-enumerable back-reference installed by def(value, ...)),
and the flags the engine inspects.  Observers and Deps live in their own
lists and are addressed by index, so object identity is index equality.
Diagnostics (warn, customSetter, the original setter being invoked) and
every Dep.notify call are recorded in an event log in program order.

Recursion through the heap (observe walking nested containers, dependArray
walking nested arrays) is modelled with an explicit fuel argument; running
out of fuel clears the ok flag of the state, which models the unbounded
recursion of the source on cyclic structures.  The development is in
dev-mode (process.env.NODE_ENV is not production) and client-side
(isServerRendering() is false), matching the branch the warnings live in.
-/

namespace Vue

/-- JavaScript runtime values as far as the reactivity engine inspects them:
undefined, ordinary primitives, NaN kept separate because it is not strictly
equal to itself, and references into the container heap. -/
inductive Val where
  | undef
  | prim (n : Int)
  | nan
  | ref (r : Nat)
deriving DecidableEq

/-- JavaScript strict equality (===) on modelled values; NaN compares
unequal to everything including itself. -/
def jsEq : Val → Val → Bool
  | .undef, .undef => true
  | .prim a, .prim b => a == b
  | .ref a, .ref b => a == b
  | _, _ => false

/-- The x !== x test used by the setter's NaN short-circuit. -/
def isNaNv : Val → Bool
  | .nan => true
  | _ => false

/-- JavaScript truthiness of a modelled value (the !ob tests of set and
del): undefined, NaN and 0 are falsy, other primitives and references are
truthy. -/
def jsTruthy : Val → Bool
  | .undef => false
  | .nan => false
  | .prim n => n != 0
  | .ref _ => true

/-- Closure state captured by the accessor pair that defineReactive installs:
the per-property Dep, the childOb variable holding the observer of the
current value, the shallow flag and whether a customSetter was supplied. -/
structure ReactClos where
  depId : Nat
  childOb : Option Nat
  shallow : Bool
  hasCustomSetter : Bool
deriving DecidableEq

/-- One own property of a container.  A pre-existing accessor pair is
modelled with a constant-result getter (getterVal) and a presence flag for
the setter, whose effect on foreign state is out of scope; reactive holds
the outermost closure once defineReactive has processed the slot, and below
holds the previously installed closures (outermost first) that a repeated
defineReactive on the same key captured and wrapped: their accessors remain
live because each installed getter/setter delegates to the pair it captured.
val is the innermost closure's storage, the only one reads can reach. -/
structure PropSlot where
  val : Val
  configurable : Bool := true
  getterVal : Option Val := none
  hasSetter : Bool := false
  reactive : Option ReactClos := none
  below : List ReactClos := []
deriving DecidableEq

/-- What Array.isArray / isPlainObject see: an array, a plain object, or
some other kind of object (for which observe declines to build a wrapper). -/
inductive CKind where
  | plainObj
  | arr
  | other
deriving DecidableEq

/-- A heap container: a plain object (fields), an array (elems), or another
object kind.  The own property named ob-underscore that def installs is kept
out of fields: obId holds it while it is an Observer back-reference, and
obRaw holds it after a plain write replaced the Observer with an ordinary
value (obRaw is meaningful only while obId is none — def overwrites any
stale remains when a new Observer attaches). -/
structure Container where
  kind : CKind
  fields : List (String × PropSlot) := []
  elems : List Val := []
  obId : Option Nat := none
  obRaw : Option Val := none
  isVue : Bool := false
  isVNode : Bool := false
  extensible : Bool := true
deriving DecidableEq

/-- An Observer instance: the container it wraps, its container-level Dep
and vmCount, the count of vms using the container as root $data. -/
structure ObData where
  valueRef : Nat
  depId : Nat
  vmCount : Nat := 0
deriving DecidableEq

/-- A Dep: the list of subscribed watcher ids, in subscription order. -/
structure DepData where
  subs : List Nat := []
deriving DecidableEq

/-- Logged events: a Dep.notify call (with the dep), a warn diagnostic, a
customSetter callback invocation, a pre-existing setter being invoked. -/
inductive Ev where
  | notify (depId : Nat)
  | warn
  | customSetter
  | callSetter
deriving DecidableEq

/-- Global state: heap of containers, Observers, Deps, Dep.target,
shouldObserve, the event log, and the ok flag cleared on fuel exhaustion. -/
structure St where
  conts : List Container
  obs : List ObData := []
  deps : List DepData := []
  target : Option Nat := none
  shouldObserve : Bool := true
  log : List Ev := []
  ok : Bool := true
deriving DecidableEq

def getCont (s : St) (r : Nat) : Option Container := s.conts[r]?

def setCont (s : St) (r : Nat) (c : Container) : St :=
  { s with conts := s.conts.set r c }

def lookupField : List (String × PropSlot) → String → Option PropSlot
  | [], _ => none
  | (k', sl) :: rest, k => if k' = k then some sl else lookupField rest k

def setField : List (String × PropSlot) → String → PropSlot → List (String × PropSlot)
  | [], k, sl => [(k, sl)]
  | (k', sl') :: rest, k, sl =>
    if k' = k then (k, sl) :: rest else (k', sl') :: setField rest k sl

def eraseField : List (String × PropSlot) → String → List (String × PropSlot)
  | [], _ => []
  | (k', sl') :: rest, k => if k' = k then rest else (k', sl') :: eraseField rest k

def getSlot (s : St) (r : Nat) (k : String) : Option PropSlot :=
  match getCont s r with
  | some c => lookupField c.fields k
  | none => none

def updateFieldsSt (s : St) (r : Nat) (k : String) (sl : PropSlot) : St :=
  match getCont s r with
  | some c => setCont s r { c with fields := setField c.fields k sl }
  | none => s

def subsAt (s : St) (d : Nat) : List Nat :=
  ((s.deps[d]?).map DepData.subs).getD []

def obsDepId (s : St) (o : Nat) : Nat :=
  ((s.obs[o]?).map ObData.depId).getD 0

def obsVm (s : St) (o : Nat) : Nat :=
  ((s.obs[o]?).map ObData.vmCount).getD 0

def obsValueRef (s : St) (o : Nat) : Nat :=
  ((s.obs[o]?).map ObData.valueRef).getD 0

def depAdd (s : St) (d w : Nat) : St :=
  match s.deps[d]? with
  | some dd => { s with deps := s.deps.set d { subs := dd.subs ++ [w] } }
  | none => s

/-- Modelled from the spec: Watcher.addDep (the watcher module is not part
of src/; only the call Dep.target.addDep(this) is).  Per the spec, reading
a property while a Computation is active subscribes that Computation to the
property's Dependency, the subscriber set being unique by identity. -/
def addDepM (s : St) (w d : Nat) : St :=
  if w ∈ subsAt s d then s else depAdd s d w

def addDepO (s : St) (w : Nat) (d : Option Nat) : St :=
  match d with
  | some d => addDepM s w d
  | none => s

def logEv (s : St) (e : Ev) : St := { s with log := s.log ++ [e] }

/-- value.__ob__ for a modelled value (none for primitives). -/
def valObId (s : St) : Val → Option Nat
  | .ref r => (getCont s r).bind Container.obId
  | _ => none

/-- The value a property read produces before tracking: getter ?
getter.call(obj) : val, with the constant-getter model of accessors. -/
def slotValue (sl : PropSlot) : Val := sl.getterVal.getD sl.val

def bumpVm (s : St) (o : Nat) : St :=
  match s.obs[o]? with
  | some ob => { s with obs := s.obs.set o { ob with vmCount := ob.vmCount + 1 } }
  | none => s

def failSt (s : St) : St := { s with ok := false }

/-- The mutually recursive tasks of the observation side: observe a value,
walk an object's keys, defineReactive one key, observe an array's items
(Observer.observeArray), dependArray, a tracked property read, and the
dependency tracking a chain of wrapped reactive getters performs during one
read (each wrapped closure's getter runs before its wrapper's, so the
levels are processed innermost first). -/
inductive Task where
  | obs (v : Val) (asRoot : Bool)
  | walk (r : Nat) (keys : List String)
  | defR (r : Nat) (k : String) (valArg : Val) (twoArg : Bool)
      (hasCustom : Bool) (shallow : Bool)
  | obsList (vs : List Val)
  | depArr (vs : List Val)
  | getP (r : Nat) (k : String)
  | track (cls : List ReactClos) (value : Val)
deriving DecidableEq

/-- The dependency tracking one reactive closure performs during a read
with an active target w: dep.depend(), then childOb.dep.depend() and
dependArray(value) when childOb is set (depf abstracts the recursive
dependArray run, supplied by the interpreter). -/
def trackOne (s : St) (w : Nat) (cl : ReactClos) (value : Val)
    (depf : St → List Val → St) : St :=
  let s1 := addDepM s w cl.depId
  match cl.childOb with
  | none => s1
  | some co =>
    let s3 := addDepM s1 w (obsDepId s1 co)
    match value with
    | .ref x =>
      match getCont s3 x with
      | some cx => if cx.kind = .arr then depf s3 cx.elems else s3
      | none => s3
    | _ => s3

/-- One fuel-indexed interpreter for the observation-side call graph of the
source (observe, Observer.walk, defineReactive, Observer.observeArray,
dependArray, reactiveGetter).  The first result component is observe's
return (the observer id); the second is the value produced by a property
read; the state is threaded through.  Fuel 0 clears the ok flag. -/
def step : Nat → Task → St → (Option Nat × Val) × St
  | 0, _, s => ((none, .undef), failSt s)
  | fuel + 1, t, s =>
    match t with
    | .obs v asRoot =>
      -- observe(value, asRootData): return unless isObject and not a VNode;
      -- reuse value.__ob__ when present, else build an Observer when
      -- shouldObserve, not server rendering, array or plain object,
      -- extensible, and not a Vue instance.
      match v with
      | .ref r =>
        match getCont s r with
        | none => ((none, .undef), s)
        | some c =>
          if c.isVNode then ((none, .undef), s)
          else
            match c.obId with
            | some o => ((some o, .undef), if asRoot then bumpVm s o else s)
            | none =>
              if s.shouldObserve = true ∧ (c.kind = .arr ∨ c.kind = .plainObj) ∧
                  c.extensible = true ∧ c.isVue = false then
                -- new Observer(value): this.dep = new Dep(); def(value, ob);
                -- arrays get the interceptor and observeArray, objects walk.
                let oid := s.obs.length
                let did := s.deps.length
                let s1 := { s with deps := s.deps ++ [{ subs := [] }],
                                   obs := s.obs ++ [{ valueRef := r, depId := did }] }
                let s2 := setCont s1 r { c with obId := some oid, obRaw := none }
                let s3 :=
                  if c.kind = .arr then (step fuel (.obsList c.elems) s2).2
                  else (step fuel (.walk r (c.fields.map Prod.fst)) s2).2
                ((some oid, .undef), if asRoot then bumpVm s3 oid else s3)
              else ((none, .undef), s)
      | _ => ((none, .undef), s)
    | .walk r keys =>
      -- Observer.walk: defineReactive(obj, keys[i]) for each key.
      match keys with
      | [] => ((none, .undef), s)
      | k :: ks =>
        let s1 := (step fuel (.defR r k .undef true false false) s).2
        step fuel (.walk r ks) s1
    | .defR r k valArg twoArg hasCustom shallow =>
      match getCont s r with
      | none => ((none, .undef), s)
      | some c =>
        -- const dep = new Dep() happens before the configurable check.
        let did := s.deps.length
        let s0 := { s with deps := s.deps ++ [{ subs := [] }] }
        match lookupField c.fields k with
        | some sl =>
          if sl.configurable = false then ((none, .undef), s0)
          else
            let hasG := sl.getterVal.isSome || sl.reactive.isSome
            let hasS := sl.hasSetter || sl.reactive.isSome
            -- if ((!getter || setter) && arguments.length === 2) val = obj[key]
            let p1 :=
              if (!hasG || hasS) && twoArg then
                let q := step fuel (.getP r k) s0
                (q.1.2, q.2)
              else (valArg, s0)
            -- let childOb = !shallow && observe(val)
            let p2 :=
              if shallow then ((none : Option Nat), p1.2)
              else
                let q := step fuel (.obs p1.1 false) p1.2
                (q.1.1, q.2)
            -- Object.defineProperty installs the reactive accessor pair.
            -- When re-installing over an already-reactive slot (set() does
            -- this for own keys shadowing Object.prototype keys), the
            -- captured getter/setter are the previous closure's accessors:
            -- the old closure keeps owning the live storage (reads delegate
            -- to it, so val is untouched) and moves to the head of below;
            -- the raw pre-existing pair stays recorded at the bottom.
            let newSl : PropSlot :=
              { val := match sl.reactive with | some _ => sl.val | none => p1.1,
                configurable := true,
                getterVal := sl.getterVal,
                hasSetter := sl.hasSetter,
                reactive := some { depId := did, childOb := p2.1,
                                   shallow := shallow, hasCustomSetter := hasCustom },
                below := match sl.reactive with
                         | some old => old :: sl.below
                         | none => sl.below }
            ((none, .undef), updateFieldsSt p2.2 r k newSl)
        | none =>
          -- property absent: descriptor undefined, so getter and setter are
          -- undefined; a two-arg call reads obj[key] = undefined.
          let v := if twoArg then Val.undef else valArg
          let p2 :=
            if shallow then ((none : Option Nat), s0)
            else
              let q := step fuel (.obs v false) s0
              (q.1.1, q.2)
          let newSl : PropSlot :=
            { val := v,
              reactive := some { depId := did, childOb := p2.1,
                                 shallow := shallow, hasCustomSetter := hasCustom } }
          ((none, .undef), updateFieldsSt p2.2 r k newSl)
    | .obsList vs =>
      -- Observer.observeArray: observe(items[i]) for each item.
      match vs with
      | [] => ((none, .undef), s)
      | v :: rest =>
        let s1 := (step fuel (.obs v false) s).2
        step fuel (.obsList rest) s1
    | .depArr vs =>
      -- dependArray: e && e.__ob__ && e.__ob__.dep.depend() for each e,
      -- recursing into nested arrays.
      match vs with
      | [] => ((none, .undef), s)
      | e :: rest =>
        let s1 :=
          match s.target, valObId s e with
          | some w, some o => addDepM s w (obsDepId s o)
          | _, _ => s
        let s2 :=
          match e with
          | .ref x =>
            match getCont s1 x with
            | some cx =>
              if cx.kind = .arr then (step fuel (.depArr cx.elems) s1).2 else s1
            | none => s1
          | _ => s1
        step fuel (.depArr rest) s2
    | .getP r k =>
      -- reactiveGetter: return the value; when Dep.target is set, dep.depend(),
      -- then childOb.dep.depend() and dependArray(value) for array values.
      -- Each wrapped older closure's getter was called first to produce the
      -- value, so its tracking (the same three steps with its own dep and
      -- childOb) runs before the outermost closure's.
      match getSlot s r k with
      | none => ((none, .undef), s)
      | some sl =>
        match sl.reactive with
        | none => ((none, slotValue sl), s)
        | some cl =>
          let value := slotValue sl
          match s.target with
          | none => ((none, value), s)
          | some w =>
            let sB := if sl.below.isEmpty then s
                      else (step fuel (.track sl.below.reverse value) s).2
            ((none, value),
              trackOne sB w cl value (fun st es => (step fuel (.depArr es) st).2))
    | .track cls value =>
      -- Dependency tracking of the wrapped closures of one property read,
      -- innermost level first: dep.depend(), then childOb.dep.depend() and
      -- dependArray(value) when the level's childOb is set.
      match cls with
      | [] => ((none, .undef), s)
      | cl :: rest =>
        match s.target with
        | none => ((none, .undef), s)
        | some w =>
          step fuel (.track rest value)
            (trackOne s w cl value (fun st es => (step fuel (.depArr es) st).2))

/-- observe(value, asRootData): the exported entry point. -/
def observe (fuel : Nat) (s : St) (v : Val) (asRoot : Bool := false) :
    Option Nat × St :=
  let q := step fuel (.obs v asRoot) s
  (q.1.1, q.2)

/-- defineReactive(obj, key, val, customSetter?, shallow?): the exported
three-or-more-argument form (set() uses this). -/
def defineReactive (fuel : Nat) (s : St) (r : Nat) (k : String) (v : Val)
    (hasCustom : Bool := false) (shallow : Bool := false) : St :=
  (step fuel (.defR r k v false hasCustom shallow) s).2

/-- A property read through the installed accessor (reactiveGetter). -/
def getProp (fuel : Nat) (s : St) (r : Nat) (k : String) : Val × St :=
  let q := step fuel (.getP r k) s
  (q.1.2, q.2)

/-- childOb update of the wrapped closure at position d of the below
chain. -/
def updBelow : List ReactClos → Nat → Option Nat → List ReactClos
  | [], _, _ => []
  | cl :: rest, 0, co => { cl with childOb := co } :: rest
  | cl :: rest, d + 1, co => cl :: updBelow rest d co

/-- childOb = ob assignment of the closure at depth d of a slot's chain
(depth 0 is the outermost closure, depth d + 1 is below[d]). -/
def setChildAt (sl : PropSlot) (d : Nat) (co : Option Nat) : PropSlot :=
  match d with
  | 0 =>
    match sl.reactive with
    | some cl => { sl with reactive := some { cl with childOb := co } }
    | none => sl
  | d + 1 => { sl with below := updBelow sl.below d co }

/-- One reactiveSetter invocation at depth d of the chain (lastLevel marks
the innermost closure, inner runs the next level's setter): recompute the
current value through the captured getter chain, exit early on identical
value (including the NaN self-inequality short-circuit), customSetter
diagnostic, the issue-7981 bail-out when the captured pair had a getter and
no setter (only the innermost level over a raw accessor can hit it), then
the write — through the captured setter, i.e. the next level of the chain,
or the raw pre-existing setter, or the closure's own val — followed by this
level's childOb = !shallow && observe(newVal) refresh and dep.notify(). -/
def setterBody (fuel : Nat) (r : Nat) (k : String) (newVal : Val) (d : Nat)
    (cl : ReactClos) (lastLevel : Bool) (inner : St → St) (s : St) : St :=
  match getSlot s r k with
  | none => s
  | some sl =>
    let value := slotValue sl
    if jsEq newVal value || (isNaNv newVal && isNaNv value) then s
    else
      let s1 := if cl.hasCustomSetter then logEv s .customSetter else s
      let innerG := !lastLevel || sl.getterVal.isSome
      let innerS := !lastLevel || sl.hasSetter
      if innerG && !innerS then s1
      else
        let s2 :=
          if lastLevel then
            if sl.hasSetter then logEv s1 .callSetter
            else updateFieldsSt s1 r k { sl with val := newVal }
          else inner s1
        let p :=
          if cl.shallow then ((none : Option Nat), s2)
          else observe fuel s2 newVal
        let s3 :=
          match getSlot p.2 r k with
          | some sl' => updateFieldsSt p.2 r k (setChildAt sl' d p.1)
          | none => p.2
        logEv s3 (.notify cl.depId)

/-- The whole setter chain, outermost level first. -/
def setterGo (fuel : Nat) (r : Nat) (k : String) (newVal : Val) :
    Nat → List ReactClos → St → St
  | _, [], s => s
  | d, cl :: rest, s =>
    setterBody fuel r k newVal d cl rest.isEmpty
      (setterGo fuel r k newVal (d + 1) rest) s

/-- reactiveSetter of the outermost closure of a slot: runs the whole chain
(each level's write routes through the pair it captured, so every level
notifies its own Dep, innermost first). -/
def reactiveSet (fuel : Nat) (s : St) (r : Nat) (k : String) (sl : PropSlot)
    (cl : ReactClos) (newVal : Val) : St :=
  setterGo fuel r k newVal 0 (cl :: sl.below) s

/-- The JavaScript assignment target[key] = v, dispatching to the installed
reactive setter when one is present, writing the data slot when the slot is
plain, invoking a raw pre-existing setter, or creating a plain property.
Writing the key of the attached back-reference (a writable own data
property) replaces the Observer with v, detaching the wrapper. -/
def writeProp (fuel : Nat) (s : St) (r : Nat) (k : String) (v : Val) : St :=
  match getCont s r with
  | none => s
  | some c =>
    match lookupField c.fields k with
    | none =>
      if k = "__ob__" then setCont s r { c with obId := none, obRaw := some v }
      else updateFieldsSt s r k { val := v }
    | some sl =>
      match sl.reactive with
      | some cl => reactiveSet fuel s r k sl cl v
      | none =>
        if sl.getterVal.isSome || sl.hasSetter then
          if sl.hasSetter then logEv s .callSetter else s
        else updateFieldsSt s r k { sl with val := v }

/-- The seven structural array operations intercepted by the mutation
interceptor (array.js, methodsToPatch). -/
inductive ArrM where
  | push
  | pop
  | shift
  | unshift
  | splice
  | sort
  | reverse
deriving DecidableEq

/-- ToInteger as splice applies it to its start and deleteCount arguments;
non-numeric values coerce through NaN to 0 in this model. -/
def jsToInt : Val → Int
  | .prim n => n
  | _ => 0

/-- Results of the original array methods: push and unshift return the new
length, pop and shift the removed element (or undefined), splice the array
of removed elements, sort and reverse the receiver itself. -/
inductive ArrRes where
  | len (n : Nat)
  | elem (v : Val)
  | removed (vs : List Val)
  | self
deriving DecidableEq

/-- A fixed total order standing in for the default sort comparator (whose
string-based ordering is irrelevant to the interceptor's contract). -/
def valKey : Val → Int × Int
  | .prim n => (0, n)
  | .ref r => (1, Int.ofNat r)
  | .nan => (2, 0)
  | .undef => (3, 0)

def valLe (a b : Val) : Bool :=
  decide ((valKey a).1 < (valKey b).1) ||
    ((valKey a).1 == (valKey b).1 && decide ((valKey a).2 ≤ (valKey b).2))

def insertVal (v : Val) : List Val → List Val
  | [] => [v]
  | w :: ws => if valLe v w then v :: w :: ws else w :: insertVal v ws

def sortVals : List Val → List Val
  | [] => []
  | v :: vs => insertVal v (sortVals vs)

/-- Splice's start normalization: negative counts from the end clamped at 0,
positive clamped at the length. -/
def spliceStart (len : Nat) (start : Int) : Nat :=
  if start < 0 then (Int.ofNat len + start).toNat else min start.toNat len

/-- The original Array.prototype semantics of the seven patched methods on
the modelled element list. -/
def originalApply : ArrM → List Val → List Val → ArrRes × List Val
  | .push, args, es => (.len (es.length + args.length), es ++ args)
  | .pop, _, es => (.elem ((es.getLast?).getD .undef), es.dropLast)
  | .shift, _, es => (.elem ((es.head?).getD .undef), es.tail)
  | .unshift, args, es => (.len (args.length + es.length), args ++ es)
  | .reverse, _, es => (.self, es.reverse)
  | .sort, _, es => (.self, sortVals es)
  | .splice, args, es =>
    match args with
    | [] => (.removed [], es)
    | startV :: rest =>
      let st := spliceStart es.length (jsToInt startV)
      let dc : Nat :=
        match rest with
        | [] => es.length - st
        | dcV :: _ => min (jsToInt dcV).toNat (es.length - st)
      let items := rest.drop 1
      (.removed ((es.drop st).take dc), es.take st ++ items ++ (es.drop st).drop dc)

/-- The switch in the mutator that decides which arguments are newly
inserted elements: all of them for push and unshift, those after the first
two for splice, none (inserted stays undefined) otherwise. -/
def insertedOf : ArrM → List Val → Option (List Val)
  | .push, args => some args
  | .unshift, args => some args
  | .splice, args => some (args.drop 2)
  | _, _ => none

def setElems (s : St) (r : Nat) (es : List Val) : St :=
  match getCont s r with
  | some c => setCont s r { c with elems := es }
  | none => s

/-- The wrapped method the interceptor installs: run the original and keep
its result, read this.__ob__, observeArray the inserted elements when the
switch produced any, ob.dep.notify(), and return the original result.  An
array without __ob__ would crash on ob.observeArray in JavaScript; the
model clears the ok flag there. -/
def mutatorRun (fuel : Nat) (s : St) (r : Nat) (m : ArrM) (args : List Val) :
    ArrRes × St :=
  match getCont s r with
  | none => (.removed [], s)
  | some c =>
    let p := originalApply m args c.elems
    let s1 := setElems s r p.2
    match c.obId with
    | none => (p.1, failSt s1)
    | some o =>
      let s2 :=
        match insertedOf m args with
        | some ins => (step fuel (.obsList ins) s1).2
        | none => s1
      (p.1, logEv s2 (.notify (obsDepId s2 o)))

/-- A property key passed to set or del: a string, or an integer index (the
only shape isValidArrayIndex accepts in this model). -/
inductive SKey where
  | s (k : String)
  | n (i : Nat)
deriving DecidableEq

def keyStr : SKey → String
  | .s k => k
  | .n i => toString i

def isIdx : SKey → Bool
  | .n _ => true
  | .s _ => false

/-- The own keys of Object.prototype, as read by the test
key in Object.prototype inside set(): the five methods, the two string
conversions, the constructor, the four legacy accessor-management methods
and the proto accessor. -/
def objProtoKeys : List String :=
  ["hasOwnProperty", "isPrototypeOf", "propertyIsEnumerable",
   "toLocaleString", "toString", "valueOf", "constructor",
   "__defineGetter__", "__defineSetter__", "__lookupGetter__",
   "__lookupSetter__", "__proto__"]

/-- isUndef(target) || isPrimitive(target) for the dev-mode warnings of set
and del. -/
def isPrimOrUndef : Val → Bool
  | .ref _ => false
  | _ => true

/-- hasOwn(target, key): an own field, or the own (non-enumerable but
in-visible and hasOwn-visible) back-reference property, attached or
overwritten. -/
def hasOwnField (c : Container) (k : String) : Bool :=
  if k = "__ob__" then c.obId.isSome || c.obRaw.isSome
  else (lookupField c.fields k).isSome

/-- Whether target carries the Vue-instance flag or is someone's root $data
(ob && ob.vmCount), the guard both set and del reject on. -/
def rootGuard (s : St) (c : Container) : Bool :=
  c.isVue ||
    (match c.obId with
     | some o => decide (0 < obsVm s o)
     | none => false)

/-- set(target, key, val): dev warning on primitive targets; valid array
index goes through length adjustment plus splice; a key present on the
target but not on Object.prototype is a plain write; Vue instances and root
$data are rejected with a warning; a non-observed target takes the plain
assignment; otherwise defineReactive the new key on ob.value and notify the
container-level dep.  Always returns val.  (On a primitive target the
subsequent key-in test throws in JavaScript; the model stops after the
warning.) -/
def setK (fuel : Nat) (s : St) (target : Val) (key : SKey) (v : Val) :
    Val × St :=
  let s := if isPrimOrUndef target then logEv s .warn else s
  match target with
  | .ref r =>
    match getCont s r with
    | none => (v, s)
    | some c =>
      if c.kind = .arr ∧ isIdx key = true then
        let i := match key with | .n i => i | .s _ => 0
        let s1 := setElems s r (if c.elems.length < i
                                then c.elems ++ List.replicate (i - c.elems.length) .undef
                                else c.elems)
        (v, (mutatorRun fuel s1 r .splice [.prim (Int.ofNat i), .prim 1, v]).2)
      else if (hasOwnField c (keyStr key) = true ∨ keyStr key ∈ objProtoKeys) ∧
          keyStr key ∉ objProtoKeys then
        (v, writeProp fuel s r (keyStr key) v)
      else if rootGuard s c then (v, logEv s .warn)
      else
        match c.obId with
        | none =>
          match c.obRaw with
          | some j =>
            if jsTruthy j then
              -- a truthy non-Observer back-reference passes the !ob test,
              -- and defineReactive(ob.value, ...) then dereferences
              -- undefined right after allocating its Dep: the model marks
              -- the state failed where the source throws
              (v, failSt { s with deps := s.deps ++ [{ subs := [] }] })
            else (v, writeProp fuel s r (keyStr key) v)
          | none => (v, writeProp fuel s r (keyStr key) v)
        | some o =>
          let s1 := defineReactive fuel s (obsValueRef s o) (keyStr key) v
          (v, logEv s1 (.notify (obsDepId s1 o)))
  | _ => (v, s)

/-- del(target, key): dev warning on primitive targets; valid array index
goes through splice; Vue instances and root $data are rejected with a
warning; absence of the own key (the back-reference counting as own) is a
no-op; otherwise delete the key — at the back-reference key this detaches
the wrapper — and, when the target was observed, ob.dep.notify(). -/
def delK (fuel : Nat) (s : St) (target : Val) (key : SKey) : St :=
  let s := if isPrimOrUndef target then logEv s .warn else s
  match target with
  | .ref r =>
    match getCont s r with
    | none => s
    | some c =>
      if c.kind = .arr ∧ isIdx key = true then
        let i := match key with | .n i => i | .s _ => 0
        (mutatorRun fuel s r .splice [.prim (Int.ofNat i), .prim 1]).2
      else if rootGuard s c then logEv s .warn
      else if hasOwnField c (keyStr key) = false then s
      else
        let s1 :=
          match lookupField c.fields (keyStr key) with
          | some _ => setCont s r { c with fields := eraseField c.fields (keyStr key) }
          | none =>
            if keyStr key = "__ob__" then
              setCont s r { c with obId := none, obRaw := none }
            else s
        match c.obId with
        | none =>
          match c.obRaw with
          | some j =>
            -- a truthy non-Observer back-reference passes the !ob test and
            -- ob.dep.notify() dereferences undefined: the source throws
            if jsTruthy j then failSt s1 else s1
          | none => s1
        | some o => logEv s1 (.notify (obsDepId s1 o))
  | _ => s

def insertNat (n : Nat) : List Nat → List Nat
  | [] => [n]
  | m :: ms => if n ≤ m then n :: m :: ms else m :: insertNat n ms

def sortNat : List Nat → List Nat
  | [] => []
  | n :: ns => insertNat n (sortNat ns)

/-- The iteration of Dep.notify over the copied subscriber list: each
watcher of the snapshot receives update in order while the live subscriber
list evolves under upd (Watcher.update is outside src/ and abstracted).
Returns the receivers in call order and the final live list. -/
def notifyGo (upd : Nat → List Nat → List Nat) :
    List Nat → List Nat → List Nat × List Nat
  | [], live => ([], live)
  | w :: ws, live =>
    let p := notifyGo upd ws (upd w live)
    (w :: p.1, p.2)

/-- Dep.notify: const subs = this.subs.slice() stabilizes the subscriber
list first; when config.async is false the copy is additionally sorted by
watcher id; then each element of the copy receives update. -/
def notifyRun (upd : Nat → List Nat → List Nat) (async : Bool)
    (subs : List Nat) : List Nat × List Nat :=
  notifyGo upd (if async then subs else sortNat subs) subs

/-- How many Dep.notify calls a log records. -/
def notifyCount (l : List Ev) : Nat :=
  (l.filter (fun e => match e with | .notify _ => true | _ => false)).length

/-- The dep ids of the Dep.notify calls a log records, in order. -/
def notifiesOf (l : List Ev) : List Nat :=
  l.filterMap (fun e => match e with | .notify d => some d | _ => none)

/-- State evolution invariant of the observation-side interpreter: no
containers are allocated or dropped, each container keeps its elements,
kind and flags, an attached observer is never detached, existing observers
keep their dep and wrapped container, dep subscriptions only grow,
Dep.target, shouldObserve and the event log are untouched, and a cleared ok
flag stays cleared. -/
structure Sub (s s' : St) : Prop where
  clen : s'.conts.length = s.conts.length
  tgt : s'.target = s.target
  sh : s'.shouldObserve = s.shouldObserve
  lg : s'.log = s.log
  cont : ∀ (r : Nat) (c : Container), s.conts[r]? = some c →
    ∃ c' : Container, s'.conts[r]? = some c' ∧
    c'.kind = c.kind ∧ c'.elems = c.elems ∧ c'.isVue = c.isVue ∧
    c'.isVNode = c.isVNode ∧ c'.extensible = c.extensible ∧
    ∀ o : Nat, c.obId = some o → c'.obId = some o
  obsd : ∀ (o : Nat) (ob : ObData), s.obs[o]? = some ob →
    ∃ ob' : ObData, s'.obs[o]? = some ob' ∧
    ob'.depId = ob.depId ∧ ob'.valueRef = ob.valueRef
  subsm : ∀ (d w : Nat), w ∈ subsAt s d → w ∈ subsAt s' d
  okl : s.ok = false → s'.ok = false
  dlen : s.deps.length ≤ s'.deps.length

theorem Sub.rfl (s : St) : Sub s s where
  clen := by rfl
  tgt := by rfl
  sh := by rfl
  lg := by rfl
  cont := fun r c h => ⟨c, h, by rfl, by rfl, by rfl, by rfl, by rfl, fun _ h => h⟩
  obsd := fun o ob h => ⟨ob, h, by rfl, by rfl⟩
  subsm := fun _ _ h => h
  okl := fun h => h
  dlen := Nat.le_refl _

theorem Sub.trans {s1 s2 s3 : St} (a : Sub s1 s2) (b : Sub s2 s3) : Sub s1 s3 where
  clen := b.clen.trans a.clen
  tgt := b.tgt.trans a.tgt
  sh := b.sh.trans a.sh
  lg := b.lg.trans a.lg
  cont := by
    intro r c h
    obtain ⟨c', h', k1, k2, k3, k4, k5, k6⟩ := a.cont r c h
    obtain ⟨c'', h'', m1, m2, m3, m4, m5, m6⟩ := b.cont r c' h'
    exact ⟨c'', h'', m1.trans k1, m2.trans k2, m3.trans k3, m4.trans k4,
      m5.trans k5, fun o ho => m6 o (k6 o ho)⟩
  obsd := by
    intro o ob h
    obtain ⟨ob', h', k1, k2⟩ := a.obsd o ob h
    obtain ⟨ob'', h'', m1, m2⟩ := b.obsd o ob' h'
    exact ⟨ob'', h'', m1.trans k1, m2.trans k2⟩
  subsm := fun d w h => b.subsm d w (a.subsm d w h)
  okl := fun h => b.okl (a.okl h)
  dlen := a.dlen.trans b.dlen

theorem subsAt_mem_exists {s : St} {d w : Nat} (h : w ∈ subsAt s d) :
    ∃ dd, s.deps[d]? = some dd ∧ w ∈ dd.subs := by
  unfold subsAt at h
  cases hd : s.deps[d]? with
  | none => rw [hd] at h; simp at h
  | some dd => rw [hd] at h; exact ⟨dd, rfl, by simpa using h⟩

theorem sub_failSt (s : St) : Sub s (failSt s) where
  clen := by rfl
  tgt := by rfl
  sh := by rfl
  lg := by rfl
  cont := fun r c h => ⟨c, h, by rfl, by rfl, by rfl, by rfl, by rfl, fun _ h => h⟩
  obsd := fun o ob h => ⟨ob, h, by rfl, by rfl⟩
  subsm := fun _ _ h => h
  okl := fun _ => by rfl
  dlen := Nat.le_refl _

theorem sub_bumpVm (s : St) (o : Nat) : Sub s (bumpVm s o) := by
  unfold bumpVm
  cases ho : s.obs[o]? with
  | none => exact Sub.rfl s
  | some ob =>
    constructor
    · rfl
    · rfl
    · rfl
    · rfl
    · exact fun r c h => ⟨c, h, by rfl, by rfl, by rfl, by rfl, by rfl, fun _ h => h⟩
    · intro o' ob' h
      by_cases he : o = o'
      · subst he
        rw [h] at ho
        injection ho with ho2
        subst ho2
        refine ⟨{ ob' with vmCount := ob'.vmCount + 1 }, ?_, by rfl, by rfl⟩
        simp only [List.getElem?_set]
        have hl : o < s.obs.length := by
          have := List.getElem?_eq_some_iff.mp h
          exact this.1
        simp [hl]
      · refine ⟨ob', ?_, by rfl, by rfl⟩
        simp only [List.getElem?_set]
        simp [he, h]
    · exact fun _ _ h => h
    · exact fun h => h
    · exact Nat.le_refl _

theorem sub_allocDepObs (s : St) (dd : DepData) (ob : ObData) :
    Sub s { s with deps := s.deps ++ [dd], obs := s.obs ++ [ob] } := by
  constructor
  · rfl
  · rfl
  · rfl
  · rfl
  · exact fun r c h => ⟨c, h, by rfl, by rfl, by rfl, by rfl, by rfl, fun _ h => h⟩
  · intro o ob' h
    refine ⟨ob', ?_, by rfl, by rfl⟩
    have hl : o < s.obs.length := (List.getElem?_eq_some_iff.mp h).1
    simpa [List.getElem?_append, hl] using h
  · intro d w h
    obtain ⟨dd', hd, hw⟩ := subsAt_mem_exists h
    have hl : d < s.deps.length := (List.getElem?_eq_some_iff.mp hd).1
    unfold subsAt
    simp [List.getElem?_append, hl, hd, hw]
  · exact fun h => h
  · simp

theorem sub_allocDep (s : St) (dd : DepData) :
    Sub s { s with deps := s.deps ++ [dd] } := by
  constructor
  · rfl
  · rfl
  · rfl
  · rfl
  · exact fun r c h => ⟨c, h, by rfl, by rfl, by rfl, by rfl, by rfl, fun _ h => h⟩
  · exact fun o ob h => ⟨ob, h, by rfl, by rfl⟩
  · intro d w h
    obtain ⟨dd', hd, hw⟩ := subsAt_mem_exists h
    have hl : d < s.deps.length := (List.getElem?_eq_some_iff.mp hd).1
    unfold subsAt
    simp [List.getElem?_append, hl, hd, hw]
  · exact fun h => h
  · simp

theorem sub_setCont (s : St) (r : Nat) (c c' : Container)
    (hc : s.conts[r]? = some c) (hk : c'.kind = c.kind) (he : c'.elems = c.elems)
    (hv : c'.isVue = c.isVue) (hn : c'.isVNode = c.isVNode)
    (hx : c'.extensible = c.extensible)
    (ho : ∀ o, c.obId = some o → c'.obId = some o) :
    Sub s (setCont s r c') := by
  have hl : r < s.conts.length := (List.getElem?_eq_some_iff.mp hc).1
  constructor
  · simp [setCont]
  · rfl
  · rfl
  · rfl
  · intro r' cc h
    by_cases he' : r = r'
    · subst he'
      rw [h] at hc
      cases hc
      refine ⟨c', ?_, hk, he, hv, hn, hx, ho⟩
      simp [setCont, List.getElem?_set, hl]
    · refine ⟨cc, ?_, by rfl, by rfl, by rfl, by rfl, by rfl, fun _ h => h⟩
      simp [setCont, List.getElem?_set, he', h]
  · exact fun o ob h => ⟨ob, h, by rfl, by rfl⟩
  · exact fun _ _ h => h
  · exact fun h => h
  · exact Nat.le_refl _

theorem sub_updateFieldsSt (s : St) (r : Nat) (k : String) (sl : PropSlot) :
    Sub s (updateFieldsSt s r k sl) := by
  unfold updateFieldsSt
  cases hc : getCont s r with
  | none => exact Sub.rfl s
  | some c =>
    exact sub_setCont s r c { c with fields := setField c.fields k sl }
      (by simpa [getCont] using hc) (by rfl) (by rfl) (by rfl)
      (by rfl) (by rfl) (fun _ h => h)

theorem sub_depAdd (s : St) (d w : Nat) : Sub s (depAdd s d w) := by
  unfold depAdd
  cases hd : s.deps[d]? with
  | none => exact Sub.rfl s
  | some dd =>
    have hl : d < s.deps.length := (List.getElem?_eq_some_iff.mp hd).1
    constructor
    · rfl
    · rfl
    · rfl
    · rfl
    · exact fun r c h => ⟨c, h, by rfl, by rfl, by rfl, by rfl, by rfl, fun _ h => h⟩
    · exact fun o ob h => ⟨ob, h, by rfl, by rfl⟩
    · intro d' w' h
      obtain ⟨dd', hd', hw⟩ := subsAt_mem_exists h
      by_cases he : d = d'
      · subst he
        rw [hd'] at hd
        cases hd
        unfold subsAt
        simp [List.getElem?_set, hl]
        exact .inl hw
      · unfold subsAt
        simp [List.getElem?_set, he, hd', hw]
    · exact fun h => h
    · simp

theorem sub_addDepM (s : St) (w d : Nat) : Sub s (addDepM s w d) := by
  unfold addDepM
  by_cases h : w ∈ subsAt s d
  · simp [h]; exact Sub.rfl s
  · simp [h]; exact sub_depAdd s d w

theorem sub_addDepO (s : St) (w : Nat) (d : Option Nat) :
    Sub s (addDepO s w d) := by
  cases d with
  | none => exact Sub.rfl s
  | some d => exact sub_addDepM s w d

theorem sub_trackOne {s0 s : St} (hs : Sub s0 s) (w : Nat) (cl : ReactClos)
    (value : Val) (depf : St → List Val → St)
    (hdep : ∀ (st : St) (es : List Val), Sub st (depf st es)) :
    Sub s0 (trackOne s w cl value depf) := by
  unfold trackOne
  refine Sub.trans hs ?_
  dsimp only
  split
  · exact sub_addDepM s _ _
  · split
    · split
      · split
        · exact Sub.trans (Sub.trans (sub_addDepM s _ _) (sub_addDepM _ _ _)) (hdep _ _)
        · exact Sub.trans (sub_addDepM s _ _) (sub_addDepM _ _ _)
      · exact Sub.trans (sub_addDepM s _ _) (sub_addDepM _ _ _)
    · exact Sub.trans (sub_addDepM s _ _) (sub_addDepM _ _ _)

theorem sub_ite_pair {β : Type} {s : St} {c : Prop} [Decidable c]
    {x y : β × St} (hx : Sub s x.2) (hy : Sub s y.2) :
    Sub s (if c then x else y).2 := by
  by_cases h : c
  · rw [if_pos h]; exact hx
  · rw [if_neg h]; exact hy

theorem sub_ite_st {s : St} {c : Prop} [Decidable c] {x y : St}
    (hx : Sub s x) (hy : Sub s y) : Sub s (if c then x else y) := by
  by_cases h : c
  · rw [if_pos h]; exact hx
  · rw [if_neg h]; exact hy

set_option maxHeartbeats 1600000 in
/-- Every observation-side task evolves the state within the Sub invariant:
these tasks never log events, never allocate or reshape containers, never
detach an observer, and only extend dep subscriptions. -/
theorem step_sub : ∀ (fuel : Nat) (t : Task) (s : St), Sub s (step fuel t s).2 := by
  intro fuel0
  induction fuel0 with
  | zero =>
    intro t s
    simpa only [step] using sub_failSt s
  | succ fuel ih =>
    intro t s
    cases t with
    | obs v asRoot =>
      cases v with
      | undef => exact Sub.rfl s
      | prim n => exact Sub.rfl s
      | nan => exact Sub.rfl s
      | ref r =>
        simp only [step]
        split
        · exact Sub.rfl s
        · rename_i c hg
          split
          · exact Sub.rfl s
          · split
            · exact sub_ite_st (sub_bumpVm s _) (Sub.rfl s)
            · rename_i hob
              split
              · rename_i hcond
                have base : Sub s (if c.kind = CKind.arr then
                    (step fuel (Task.obsList c.elems) (setCont { s with
                        obs := s.obs ++ [{ valueRef := r, depId := s.deps.length, vmCount := 0 }],
                        deps := s.deps ++ [{ subs := [] }] } r
                        { c with obId := some s.obs.length, obRaw := none })).2
                  else
                    (step fuel (Task.walk r (List.map Prod.fst c.fields)) (setCont { s with
                        obs := s.obs ++ [{ valueRef := r, depId := s.deps.length, vmCount := 0 }],
                        deps := s.deps ++ [{ subs := [] }] } r
                        { c with obId := some s.obs.length, obRaw := none })).2) := by
                  refine Sub.trans (Sub.trans
                    (sub_allocDepObs s { subs := [] }
                      { valueRef := r, depId := s.deps.length, vmCount := 0 })
                    (sub_setCont _ r c { c with obId := some s.obs.length, obRaw := none }
                      (by simpa using hg) (by rfl) (by rfl) (by rfl)
                      (by rfl) (by rfl) (fun o ho => by rw [hob] at ho; cases ho))) ?_
                  exact sub_ite_st (ih _ _) (ih _ _)
                exact sub_ite_st (Sub.trans base (sub_bumpVm _ _)) base
              · exact Sub.rfl s
    | walk r keys =>
      cases keys with
      | nil => exact Sub.rfl s
      | cons k ks =>
        simp only [step]
        exact Sub.trans (ih _ s) (ih _ _)
    | defR r k valArg twoArg hasCustom shallow =>
      simp only [step]
      split
      · exact Sub.rfl s
      · rename_i c hg
        split
        · rename_i sl hsl
          split
          · exact sub_allocDep s { subs := [] }
          · refine Sub.trans ?_ (sub_updateFieldsSt _ r k _)
            refine sub_ite_pair ?_ ?_
            · exact sub_ite_pair
                (Sub.trans (sub_allocDep s { subs := [] }) (ih _ _))
                (sub_allocDep s { subs := [] })
            · refine Sub.trans ?_ (ih _ _)
              exact sub_ite_pair
                (Sub.trans (sub_allocDep s { subs := [] }) (ih _ _))
                (sub_allocDep s { subs := [] })
        · rename_i hsl
          refine Sub.trans ?_ (sub_updateFieldsSt _ r k _)
          refine sub_ite_pair (sub_allocDep s { subs := [] }) ?_
          exact Sub.trans (sub_allocDep s { subs := [] }) (ih _ _)
    | obsList vs =>
      cases vs with
      | nil => exact Sub.rfl s
      | cons v rest =>
        simp only [step]
        exact Sub.trans (ih _ s) (ih _ _)
    | depArr vs =>
      cases vs with
      | nil => exact Sub.rfl s
      | cons e rest =>
        simp only [step]
        refine Sub.trans ?_ (ih _ _)
        split <;> (first | split | skip) <;> (first | split | skip) <;> (first | split | skip) <;>
          first
            | exact Sub.trans (sub_addDepM s _ _) (ih _ _)
            | exact ih _ _
            | exact sub_addDepM s _ _
            | exact Sub.rfl s
    | getP r k =>
      simp only [step]
      split <;> (first | split | skip) <;> (first | split | skip) <;>
        first
          | exact Sub.rfl s
          | exact sub_trackOne (sub_ite_st (Sub.rfl s) (ih _ _)) _ _ _ _
              (fun st es => ih (.depArr es) st)
    | track cls value =>
      cases cls with
      | nil => exact Sub.rfl s
      | cons cl rest =>
        simp only [step]
        split
        · exact Sub.rfl s
        · exact Sub.trans
            (sub_trackOne (Sub.rfl s) _ _ _ _ (fun st es => ih (.depArr es) st))
            (ih _ _)

/-- Tasks that never touch the fields of container r: walking r or running
defineReactive on r are the only field writers of the observation side. -/
def avoids (r : Nat) : Task → Prop
  | .walk x _ => x ≠ r
  | .defR x _ _ _ _ _ => x ≠ r
  | _ => True

theorem conts_failSt (s : St) : (failSt s).conts = s.conts := rfl

theorem conts_bumpVm (s : St) (o : Nat) : (bumpVm s o).conts = s.conts := by
  unfold bumpVm
  cases s.obs[o]? <;> rfl

theorem conts_addDepM (s : St) (w d : Nat) : (addDepM s w d).conts = s.conts := by
  unfold addDepM depAdd
  by_cases h : w ∈ subsAt s d
  · rw [if_pos h]
  · rw [if_neg h]
    cases s.deps[d]? <;> rfl

theorem conts_trackOne (s : St) (w : Nat) (cl : ReactClos) (value : Val)
    (depf : St → List Val → St)
    (hdep : ∀ (st : St) (es : List Val), (depf st es).conts = st.conts) :
    (trackOne s w cl value depf).conts = s.conts := by
  unfold trackOne
  dsimp only
  split
  · exact conts_addDepM s _ _
  · split
    · split
      · split
        · exact ((hdep _ _).trans (conts_addDepM _ _ _)).trans (conts_addDepM s _ _)
        · exact (conts_addDepM _ _ _).trans (conts_addDepM s _ _)
      · exact (conts_addDepM _ _ _).trans (conts_addDepM s _ _)
    · exact (conts_addDepM _ _ _).trans (conts_addDepM s _ _)

theorem conts_setCont_ne (s : St) (x : Nat) (c' : Container) {r : Nat}
    (h : x ≠ r) : (setCont s x c').conts[r]? = s.conts[r]? := by
  simp [setCont, List.getElem?_set, h]

theorem conts_updateFieldsSt_ne (s : St) (x : Nat) (k : String) (sl : PropSlot)
    {r : Nat} (h : x ≠ r) :
    (updateFieldsSt s x k sl).conts[r]? = s.conts[r]? := by
  unfold updateFieldsSt
  cases getCont s x with
  | none => rfl
  | some c => exact conts_setCont_ne s x _ h

/-- dependArray, a tracked read and the chain tracking only ever extend
dep subscriptions: the container heap is returned untouched. -/
theorem conts_depOnly : ∀ (fuel : Nat) (t : Task) (s : St),
    (match t with
     | .depArr _ => True
     | .getP _ _ => True
     | .track _ _ => True
     | _ => False) →
    (step fuel t s).2.conts = s.conts := by
  intro fuel0
  induction fuel0 with
  | zero =>
    intro t s h
    exact conts_failSt s
  | succ fuel ih =>
    intro t s hdep
    cases t with
    | obs v a => cases hdep
    | walk x ks => cases hdep
    | defR x k v b1 b2 b3 => cases hdep
    | obsList vs => cases hdep
    | depArr vs =>
      cases vs with
      | nil => rfl
      | cons e rest =>
        simp only [step]
        rw [ih (.depArr rest) _ (by trivial)]
        split <;> (first | split | skip) <;> (first | split | skip) <;> (first | split | skip) <;>
          first
            | rfl
            | exact conts_addDepM _ _ _
            | exact (ih (.depArr _) _ (by trivial)).trans (conts_addDepM _ _ _)
            | exact ih (.depArr _) _ (by trivial)
    | getP r k =>
      simp only [step]
      split <;> (first | split | skip) <;> (first | split | skip) <;>
        first
          | rfl
          | exact (conts_trackOne _ _ _ _ _
                (fun st es => ih (.depArr es) st (by trivial))).trans
              (by split
                  · rfl
                  · exact ih (.track _ _) _ (by trivial))
    | track cls value =>
      cases cls with
      | nil => rfl
      | cons cl rest =>
        simp only [step]
        split
        · rfl
        · exact (ih (.track rest value) _ (by trivial)).trans
            (conts_trackOne _ _ _ _ _ (fun st es => ih (.depArr es) st (by trivial)))

/-- A container that is already observed keeps its exact record (fields
included) across every observation-side task that does not target it:
walk and defineReactive only ever run on containers that were unobserved
when their walk began. -/
theorem step_frame : ∀ (fuel : Nat) (t : Task) (s : St) (r : Nat) (c : Container),
    s.conts[r]? = some c → c.obId.isSome = true → avoids r t →
    (step fuel t s).2.conts[r]? = some c := by
  intro fuel0
  induction fuel0 with
  | zero =>
    intro t s r c hc _ _
    simpa only [step, conts_failSt] using hc
  | succ fuel ih =>
    intro t s r c hc hio hav
    cases t with
    | obs v asRoot =>
      cases v with
      | undef => exact hc
      | prim n => exact hc
      | nan => exact hc
      | ref x =>
        simp only [step]
        split
        · exact hc
        · rename_i c2 hg
          split
          · exact hc
          · split
            · split
              · simp only [conts_bumpVm]
                exact hc
              · exact hc
            · rename_i hob
              split
              · have hxr : x ≠ r := by
                  intro he
                  subst he
                  rw [show getCont s x = s.conts[x]? from rfl, hc] at hg
                  injection hg with hg2
                  subst hg2
                  rw [hob] at hio
                  cases hio
                have hstep : ∀ (t' : Task), avoids r t' →
                    (step fuel t'
                      (setCont { s with
                        obs := s.obs ++ [{ valueRef := x, depId := s.deps.length, vmCount := 0 }],
                        deps := s.deps ++ [{ subs := [] }] } x
                        { c2 with obId := some s.obs.length, obRaw := none })).2.conts[r]? = some c := by
                  intro t' hav'
                  refine ih t' _ r c ?_ hio hav'
                  rw [conts_setCont_ne _ x _ hxr]
                  exact hc
                split <;> (first | split | skip) <;> (try simp only [conts_bumpVm]) <;>
                  first
                    | exact hstep (.obsList c2.elems) (by trivial)
                    | exact hstep (.walk x (List.map Prod.fst c2.fields)) hxr
              · exact hc
    | walk x keys =>
      cases keys with
      | nil => exact hc
      | cons k ks =>
        have hxr : x ≠ r := hav
        simp only [step]
        exact ih (.walk x ks) _ r c
          (ih (.defR x k .undef true false false) s r c hc hio hxr) hio hxr
    | defR x k valArg twoArg hasCustom shallow =>
      have hxr : x ≠ r := hav
      simp only [step]
      split
      · exact hc
      · rename_i c2 hg
        split
        · rename_i sl hsl
          split
          · exact hc
          · rw [conts_updateFieldsSt_ne _ x _ _ hxr]
            split <;> (first | split | skip) <;>
              first
                | exact hc
                | exact ih (.getP x k) _ r c hc hio (by trivial)
                | exact ih (.obs _ false) _ r c hc hio (by trivial)
                | exact ih (.obs _ false) _ r c
                    (ih (.getP x k) _ r c hc hio (by trivial)) hio (by trivial)
        · rw [conts_updateFieldsSt_ne _ x _ _ hxr]
          split <;>
            first
              | exact hc
              | exact ih (.obs _ false) _ r c hc hio (by trivial)
    | obsList vs =>
      cases vs with
      | nil => exact hc
      | cons v rest =>
        simp only [step]
        exact ih (.obsList rest) _ r c
          (ih (.obs v false) s r c hc hio (by trivial)) hio (by trivial)
    | depArr vs =>
      rw [conts_depOnly _ _ _ (by trivial)]
      exact hc
    | getP r' k =>
      rw [conts_depOnly _ _ _ (by trivial)]
      exact hc
    | track cls value =>
      rw [conts_depOnly _ _ _ (by trivial)]
      exact hc

/-- observe on an already-wrapped container: the hasOwn test on the hidden
back-reference finds the Observer, which is returned with the state
untouched (non-root call). -/
theorem observe_existing (fuel : Nat) (s : St) (r o : Nat) (c : Container)
    (hc : getCont s r = some c) (hvn : c.isVNode = false) (ho : c.obId = some o) :
    step (fuel + 1) (.obs (.ref r) false) s = ((some o, .undef), s) := by
  simp only [step, hc, hvn, ho, Bool.false_eq_true, if_false]

/-- When observe returns an Observer, the argument was a non-VNode container
reference and the resulting state carries the returned Observer as that
container's back-reference. -/
theorem observe_success : ∀ (fuel : Nat) (s : St) (v : Val) (a : Bool) (o : Nat),
    (step fuel (.obs v a) s).1.1 = some o →
    ∃ r c, v = .ref r ∧ (step fuel (.obs v a) s).2.conts[r]? = some c ∧
      c.obId = some o ∧ c.isVNode = false := by
  intro fuel s v a o h
  match fuel with
  | 0 => simp [step] at h
  | fuel + 1 =>
    rcases hq : step (fuel + 1) (.obs v a) s with ⟨⟨ob, rv⟩, s'⟩
    rw [hq] at h
    have h2 : ob = some o := h
    simp only [step] at hq
    split at hq
    · rename_i x
      split at hq
      · injection hq with hq1 hq2
        injection hq1 with hq3 hq4
        subst hq3
        cases h2
      · rename_i c2 hg
        split at hq
        · injection hq with hq1 hq2
          injection hq1 with hq3 hq4
          subst hq3
          cases h2
        · rename_i hvnot
          have hvn' : c2.isVNode = false := by simpa using hvnot
          split at hq
          · rename_i o2 hob
            injection hq with hq1 hq2
            injection hq1 with hq3 hq4
            subst hq3
            injection h2 with h3
            subst h3
            refine ⟨x, c2, rfl, ?_, hob, hvn'⟩
            rw [← hq2]
            split
            · rw [conts_bumpVm]
              exact hg
            · exact hg
          · rename_i hob
            split at hq
            · rename_i hcond
              injection hq with hq1 hq2
              injection hq1 with hq3 hq4
              subst hq3
              injection h2 with h3
              subst h3
              have hlt : x < s.conts.length := (List.getElem?_eq_some_iff.mp hg).1
              have hS2 : (setCont { s with
                  obs := s.obs ++ [{ valueRef := x, depId := s.deps.length, vmCount := 0 }],
                  deps := s.deps ++ [{ subs := [] }] } x
                  { c2 with obId := some s.obs.length, obRaw := none }).conts[x]? =
                  some { c2 with obId := some s.obs.length, obRaw := none } := by
                simp [setCont, List.getElem?_set, hlt]
              have key : ∀ (t' : Task), ∃ c' : Container,
                  ((step fuel t' (setCont { s with
                    obs := s.obs ++ [{ valueRef := x, depId := s.deps.length, vmCount := 0 }],
                    deps := s.deps ++ [{ subs := [] }] } x
                    { c2 with obId := some s.obs.length, obRaw := none })).2).conts[x]? = some c' ∧
                  c'.obId = some s.obs.length ∧ c'.isVNode = false := by
                intro t'
                obtain ⟨c', h1, hkind, helems, hvue, hvnode, hext, hobp⟩ :=
                  (step_sub fuel t' _).cont x _ hS2
                exact ⟨c', h1, hobp _ rfl, by rw [hvnode]; exact hvn'⟩
              rw [← hq2]
              split
              · split
                · rename_i hk _
                  obtain ⟨c', h1, hpo, hpn⟩ := key (.obsList c2.elems)
                  refine ⟨x, c', rfl, ?_, hpo, hpn⟩
                  rw [conts_bumpVm]
                  exact h1
                · rename_i hk _
                  obtain ⟨c', h1, hpo, hpn⟩ := key (.walk x (List.map Prod.fst c2.fields))
                  refine ⟨x, c', rfl, ?_, hpo, hpn⟩
                  rw [conts_bumpVm]
                  exact h1
              · split
                · obtain ⟨c', h1, hpo, hpn⟩ := key (.obsList c2.elems)
                  exact ⟨x, c', rfl, h1, hpo, hpn⟩
                · obtain ⟨c', h1, hpo, hpn⟩ := key (.walk x (List.map Prod.fst c2.fields))
                  exact ⟨x, c', rfl, h1, hpo, hpn⟩
            · injection hq with hq1 hq2
              injection hq1 with hq3 hq4
              subst hq3
              cases h2
    · injection hq with hq1 hq2
      injection hq1 with hq3 hq4
      subst hq3
      cases h2

theorem getSlot_some {s : St} {r : Nat} {k : String} {sl : PropSlot}
    (h : getSlot s r k = some sl) :
    ∃ c, getCont s r = some c ∧ lookupField c.fields k = some sl := by
  unfold getSlot at h
  cases hc : getCont s r with
  | none => rw [hc] at h; cases h
  | some c => rw [hc] at h; exact ⟨c, rfl, h⟩

theorem slotValue_data {sl : PropSlot} (h : sl.getterVal = none) :
    slotValue sl = sl.val := by
  simp [slotValue, h]

theorem lookupField_setField (fs : List (String × PropSlot)) (k : String)
    (sl : PropSlot) : lookupField (setField fs k sl) k = some sl := by
  induction fs with
  | nil => simp [setField, lookupField]
  | cons p rest ihp =>
    by_cases h : p.1 = k
    · simp [setField, lookupField, h]
    · simp [setField, lookupField, h, ihp]

theorem lookupField_setField_ne (fs : List (String × PropSlot)) (k k' : String)
    (sl : PropSlot) (h : k ≠ k') :
    lookupField (setField fs k sl) k' = lookupField fs k' := by
  induction fs with
  | nil => simp [setField, lookupField, h]
  | cons p rest ihp =>
    by_cases hp : p.1 = k
    · simp [setField, lookupField, hp, h]
    · simp only [setField, lookupField, if_neg hp]
      by_cases hp' : p.1 = k'
      · simp [hp']
      · simp [hp', ihp]

theorem log_updateFieldsSt (s : St) (r : Nat) (k : String) (sl : PropSlot) :
    (updateFieldsSt s r k sl).log = s.log := by
  unfold updateFieldsSt
  cases getCont s r <;> rfl

theorem deps_updateFieldsSt (s : St) (r : Nat) (k : String) (sl : PropSlot) :
    (updateFieldsSt s r k sl).deps = s.deps := by
  unfold updateFieldsSt
  cases getCont s r <;> rfl

theorem obs_updateFieldsSt (s : St) (r : Nat) (k : String) (sl : PropSlot) :
    (updateFieldsSt s r k sl).obs = s.obs := by
  unfold updateFieldsSt
  cases getCont s r <;> rfl

theorem getCont_updateFieldsSt_self {s : St} {r : Nat} {k : String}
    {sl : PropSlot} {c : Container} (hc : getCont s r = some c) :
    getCont (updateFieldsSt s r k sl) r =
      some { c with fields := setField c.fields k sl } := by
  have hlt : r < s.conts.length := (List.getElem?_eq_some_iff.mp hc).1
  unfold updateFieldsSt
  rw [hc]
  simp [getCont, setCont, List.getElem?_set, hlt]

theorem obId_updateFieldsSt (s : St) (r : Nat) (k : String) (sl : PropSlot)
    (x ox : Nat)
    (h : ∃ cx, s.conts[x]? = some cx ∧ cx.obId = some ox) :
    ∃ cx, (updateFieldsSt s r k sl).conts[x]? = some cx ∧ cx.obId = some ox := by
  obtain ⟨cx, hx, hox⟩ := h
  unfold updateFieldsSt
  cases hc : getCont s r with
  | none => exact ⟨cx, hx, hox⟩
  | some c =>
    by_cases he : r = x
    · subst he
      rw [show getCont s r = s.conts[r]? from rfl, hx] at hc
      injection hc with hc2
      subst hc2
      have hlt : r < s.conts.length := (List.getElem?_eq_some_iff.mp hx).1
      refine ⟨{ cx with fields := setField cx.fields k sl }, ?_, hox⟩
      simp [setCont, List.getElem?_set, hlt]
    · refine ⟨cx, ?_, hox⟩
      simp [setCont, List.getElem?_set, he, hx]

/-- A value on which observe will find or attach a wrapper: the container
exists, is not a VNode, and either already carries a back-reference or
satisfies the Observer construction conditions. -/
def eligible (s : St) (x : Nat) : Prop :=
  ∃ c, s.conts[x]? = some c ∧ c.isVNode = false ∧
    (c.obId.isSome = true ∨
      (s.shouldObserve = true ∧ (c.kind = .arr ∨ c.kind = .plainObj) ∧
        c.extensible = true ∧ c.isVue = false))

theorem eligible_updateFieldsSt (s : St) (r : Nat) (k : String) (sl : PropSlot)
    {x : Nat} (h : eligible s x) : eligible (updateFieldsSt s r k sl) x := by
  obtain ⟨c, hx, hvn, helig⟩ := h
  unfold updateFieldsSt
  cases hc : getCont s r with
  | none => exact ⟨c, hx, hvn, helig⟩
  | some c0 =>
    by_cases he : r = x
    · subst he
      rw [show getCont s r = s.conts[r]? from rfl, hx] at hc
      injection hc with hc2
      subst hc2
      have hlt : r < s.conts.length := (List.getElem?_eq_some_iff.mp hx).1
      refine ⟨{ c with fields := setField c.fields k sl }, ?_, hvn, helig⟩
      simp [setCont, List.getElem?_set, hlt]
    · refine ⟨c, ?_, hvn, helig⟩
      simp [setCont, List.getElem?_set, he, hx]

/-- One unfolding of observe on an eligible container: afterwards the
container carries a back-reference (the pre-existing one, or the Observer
just constructed). -/
theorem obs_attaches (fuel : Nat) (s : St) (x : Nat) (a : Bool)
    (h : eligible s x) :
    ∃ ox cx, (step (fuel + 1) (.obs (.ref x) a) s).2.conts[x]? = some cx ∧
      cx.obId = some ox := by
  obtain ⟨c, hx, hvn, helig⟩ := h
  simp only [step, show getCont s x = s.conts[x]? from rfl, hx]
  split
  · rename_i hvn2
    exact absurd hvn2 (by simp [hvn])
  · split
    · rename_i o hob
      refine ⟨o, c, ?_, hob⟩
      split
      · rw [conts_bumpVm]; exact hx
      · exact hx
    · rename_i hob
      rcases helig with helig | helig
      · rw [hob] at helig; cases helig
      rw [if_pos ⟨helig.1, helig.2.1, helig.2.2.1, helig.2.2.2⟩]
      have hlt : x < s.conts.length := (List.getElem?_eq_some_iff.mp hx).1
      have hS2 : (setCont { s with
          obs := s.obs ++ [{ valueRef := x, depId := s.deps.length, vmCount := 0 }],
          deps := s.deps ++ [{ subs := [] }] } x
          { c with obId := some s.obs.length, obRaw := none }).conts[x]? =
          some { c with obId := some s.obs.length, obRaw := none } := by
        simp [setCont, List.getElem?_set, hlt]
      have key : ∀ (t' : Task), ∃ cx : Container,
          ((step fuel t' (setCont { s with
            obs := s.obs ++ [{ valueRef := x, depId := s.deps.length, vmCount := 0 }],
            deps := s.deps ++ [{ subs := [] }] } x
            { c with obId := some s.obs.length, obRaw := none })).2).conts[x]? = some cx ∧
          cx.obId = some s.obs.length := by
        intro t'
        obtain ⟨cx, h1, _, _, _, _, _, hobp⟩ := (step_sub fuel t' _).cont x _ hS2
        exact ⟨cx, h1, hobp _ rfl⟩
      refine ⟨s.obs.length, ?_⟩
      split
      · split
        · obtain ⟨cx, h1, h2⟩ := key (.obsList c.elems)
          refine ⟨cx, ?_, h2⟩
          rw [conts_bumpVm]
          exact h1
        · obtain ⟨cx, h1, h2⟩ := key (.walk x (List.map Prod.fst c.fields))
          refine ⟨cx, ?_, h2⟩
          rw [conts_bumpVm]
          exact h1
      · split
        · exact key (.obsList c.elems)
        · exact key (.walk x (List.map Prod.fst c.fields))

/-- Claim C1: calling observe twice on the same container returns the same
Observer identity both times: when the first call succeeds, the second call
finds the existing wrapper through the attached back-reference and returns
it with the state exactly unchanged — no accessors are installed again. -/
theorem C1_observe_idempotent (fuel fuel' : Nat) (s : St) (v : Val) (o : Nat)
    (h : (observe fuel s v).1 = some o) :
    observe (fuel' + 1) (observe fuel s v).2 v = (some o, (observe fuel s v).2) := by
  have h' : (step fuel (.obs v false) s).1.1 = some o := h
  obtain ⟨r, c, hv, hc, ho, hvn⟩ := observe_success fuel s v false o h'
  subst hv
  unfold observe
  rw [observe_existing fuel' _ r o c hc hvn ho]

/-- A one-field plain object, the concrete input of the C1 witness. -/
def st1 : St := { conts := [{ kind := .plainObj, fields := [("a", { val := .prim 1 })] }] }

/-- Witness for C1: observing the object a first time succeeds, and the
claim theorem applied at that input returns the same wrapper unchanged. -/
theorem C1_observe_idempotent_witness :
    (observe 5 st1 (.ref 0)).1 = some 0 ∧
    observe (5 + 1) (observe 5 st1 (.ref 0)).2 (.ref 0) =
      (some 0, (observe 5 st1 (.ref 0)).2) :=
  ⟨by decide, C1_observe_idempotent 5 5 st1 (.ref 0) 0 (by decide)⟩

theorem notifyGo_fst (upd : Nat → List Nat → List Nat) :
    ∀ (snap live : List Nat), (notifyGo upd snap live).1 = snap := by
  intro snap
  induction snap with
  | nil => intro live; rfl
  | cons w ws ihw => intro live; simp [notifyGo, ihw]

/-- Claim C5: Dep.notify iterates the snapshot this.subs.slice() taken at
the start of the call, so however each update mutates the live subscriber
list (upd is arbitrary), the receiver sequence is fully determined by the
initial list: it is that list itself when config.async holds, and its
id-sorted permutation otherwise. -/
theorem C5_notify_snapshot (upd : Nat → List Nat → List Nat) (subs : List Nat) :
    (notifyRun upd true subs).1 = subs ∧
    (notifyRun upd false subs).1 = sortNat subs := by
  constructor
  · simpa [notifyRun] using notifyGo_fst upd subs subs
  · simpa [notifyRun] using notifyGo_fst upd (sortNat subs) subs

/-- Claim C9: defineReactive on a property whose descriptor has
configurable false returns before touching it: every container (hence the
property) is unchanged, nothing is logged, and the ok flag is untouched
(no throw) — only the Dep allocated before the check remains behind. -/
theorem C9_nonconfigurable_skip (fuel : Nat) (s : St) (r : Nat) (k : String)
    (v : Val) (hasCustom shallow twoArg : Bool) (c : Container) (sl : PropSlot)
    (hc : getCont s r = some c) (hsl : lookupField c.fields k = some sl)
    (hcf : sl.configurable = false) (hf : 0 < fuel) :
    (step fuel (.defR r k v twoArg hasCustom shallow) s).2.conts = s.conts ∧
    (step fuel (.defR r k v twoArg hasCustom shallow) s).2.log = s.log ∧
    (step fuel (.defR r k v twoArg hasCustom shallow) s).2.ok = s.ok := by
  rcases Nat.exists_eq_succ_of_ne_zero (show fuel ≠ 0 by omega) with ⟨fuel, rfl⟩
  simp only [step, hc, hsl, hcf]
  exact ⟨rfl, rfl, rfl⟩

/-- A one-field object whose property is non-configurable, the concrete
input of the C9 witness. -/
def st9 : St :=
  { conts :=
      [{ kind := .plainObj,
         fields := [("f", { val := .prim 4, configurable := false })] }] }

/-- Witness for C9 at the non-configurable slot f. -/
theorem C9_nonconfigurable_skip_witness :
    (step 5 (.defR 0 "f" (.prim 9) false false false) st9).2.conts = st9.conts ∧
    (step 5 (.defR 0 "f" (.prim 9) false false false) st9).2.log = st9.log ∧
    (step 5 (.defR 0 "f" (.prim 9) false false false) st9).2.ok = st9.ok :=
  C9_nonconfigurable_skip 5 st9 0 "f" (.prim 9) false false false
    { kind := .plainObj,
      fields := [("f", { val := .prim 4, configurable := false })] }
    { val := .prim 4, configurable := false }
    (by decide) (by decide) (by decide) (by decide)

theorem notifyCount_append (l l' : List Ev) :
    notifyCount (l ++ l') = notifyCount l + notifyCount l' := by
  simp [notifyCount, List.filter_append]

/-- A single-closure setter over a raw accessor with a getter and no
setter stops at the issue-7981 guard, right after the customSetter
diagnostic. -/
theorem setterGo_drop (fuel : Nat) (r : Nat) (k : String) (newVal : Val)
    (d : Nat) (cl : ReactClos) (s : St) (sl : PropSlot)
    (hgs : getSlot s r k = some sl)
    (hneq : (jsEq newVal (slotValue sl) ||
      (isNaNv newVal && isNaNv (slotValue sl))) = false)
    (hg : sl.getterVal.isSome = true) (hset : sl.hasSetter = false) :
    setterGo fuel r k newVal d [cl] s =
      if cl.hasCustomSetter then logEv s .customSetter else s := by
  show setterBody fuel r k newVal d cl (List.isEmpty ([] : List ReactClos))
    (setterGo fuel r k newVal (d + 1) []) s = _
  unfold setterBody
  simp only [hgs, hneq, Bool.false_eq_true, if_false, List.isEmpty_nil,
    Bool.not_true, Bool.false_or, hg, hset, Bool.not_false, Bool.and_true,
    if_true]

/-- Claim C10: on a reactive property whose original descriptor had a
getter but no setter, a write of a non-identical value is dropped by the
issue-7981 guard: the heap (hence the stored value and childOb), the deps
and the observers are unchanged and no notify is logged; only the optional
customSetter diagnostic may fire before the guard. -/
theorem C10_getter_no_setter_drop (fuel : Nat) (s : St) (r : Nat) (k : String)
    (sl : PropSlot) (cl : ReactClos) (g newVal : Val) (c : Container)
    (hc : getCont s r = some c) (hsl : lookupField c.fields k = some sl)
    (hr : sl.reactive = some cl) (hb : sl.below = [])
    (hg : sl.getterVal = some g) (hset : sl.hasSetter = false)
    (hneq : (jsEq newVal g || (isNaNv newVal && isNaNv g)) = false) :
    (writeProp fuel s r k newVal).conts = s.conts ∧
    (writeProp fuel s r k newVal).deps = s.deps ∧
    (writeProp fuel s r k newVal).obs = s.obs ∧
    notifyCount (writeProp fuel s r k newVal).log = notifyCount s.log := by
  have hval : slotValue sl = g := by simp [slotValue, hg]
  have hw : writeProp fuel s r k newVal =
      if cl.hasCustomSetter then logEv s .customSetter else s := by
    simp only [writeProp, hc, hsl, hr, reactiveSet, hb]
    exact setterGo_drop fuel r k newVal 0 cl s sl (by simp [getSlot, hc, hsl])
      (by rw [hval]; exact hneq) (by simp [hg]) hset
  rw [hw]
  cases cl.hasCustomSetter
  · simp
  · simp [logEv, notifyCount_append, notifyCount]

/-- A reactive property over a getter-only accessor, the concrete input of
the C10 witness. -/
def st10 : St :=
  { conts :=
      [{ kind := .plainObj, obId := some 0,
         fields :=
           [("p", { val := .undef, getterVal := some (.prim 1),
                    reactive := some ⟨0, none, false, false⟩ })] }],
    obs := [{ valueRef := 0, depId := 1 }],
    deps := [{ subs := [] }, { subs := [] }] }

/-- Witness for C10: writing 2 over the getter-only reactive property p. -/
theorem C10_getter_no_setter_drop_witness :
    (writeProp 5 st10 0 "p" (.prim 2)).conts = st10.conts ∧
    (writeProp 5 st10 0 "p" (.prim 2)).deps = st10.deps ∧
    (writeProp 5 st10 0 "p" (.prim 2)).obs = st10.obs ∧
    notifyCount (writeProp 5 st10 0 "p" (.prim 2)).log = notifyCount st10.log :=
  C10_getter_no_setter_drop 5 st10 0 "p"
    { val := .undef, getterVal := some (.prim 1),
      reactive := some ⟨0, none, false, false⟩ }
    ⟨0, none, false, false⟩ (.prim 1) (.prim 2)
    { kind := .plainObj, obId := some 0,
      fields :=
        [("p", { val := .undef, getterVal := some (.prim 1),
                 reactive := some ⟨0, none, false, false⟩ })] }
    (by decide) (by decide) (by decide) (by decide) (by decide) (by decide)
    (by decide)

/-- A reactive property over a getter-only accessor, the concrete input of
the C2 counterexample. -/
def st2c : St :=
  { conts :=
      [{ kind := .plainObj, obId := some 0,
         fields :=
           [("p", { val := .undef, getterVal := some (.prim 1),
                    reactive := some ⟨0, none, false, false⟩ })] }],
    obs := [{ valueRef := 0, depId := 1 }],
    deps := [{ subs := [] }, { subs := [] }] }

/-- Counterexample to claim C2 as stated: p is a reactive property whose
original descriptor had a getter (constantly 1) and no setter; writing the
different value 2 does not notify — the notify count stays 0 instead of
rising by one as the claim requires for every reactive property (and the
state is unchanged, so the value is not stored either). -/
theorem C2_counterexample :
    ¬ (notifyCount (writeProp 5 st2c 0 "p" (.prim 2)).log =
        notifyCount st2c.log + 1) := by decide

theorem eligible_logEv {s : St} {e : Ev} {x : Nat} (h : eligible s x) :
    eligible (logEv s e) x := h

theorem getCont_logEv (s : St) (e : Ev) (r : Nat) :
    getCont (logEv s e) r = getCont s r := rfl

theorem C2aux (f : Nat) (s0 : St) (r : Nat) (k : String) (sl : PropSlot)
    (cl : ReactClos) (o : Nat) (c0 : Container) (newVal : Val)
    (q : (Option Nat × Val) × St)
    (hq : step (f + 1) (.obs newVal false)
      (updateFieldsSt s0 r k { sl with val := newVal }) = q)
    (hc : getCont s0 r = some c0) (ho : c0.obId = some o) :
    getSlot (logEv (updateFieldsSt q.2 r k
        { sl with val := newVal, reactive := some { cl with childOb := q.1.1 } })
        (.notify cl.depId)) r k =
      some { sl with val := newVal, reactive := some { cl with childOb := q.1.1 } } ∧
    (logEv (updateFieldsSt q.2 r k
        { sl with val := newVal, reactive := some { cl with childOb := q.1.1 } })
        (.notify cl.depId)).log = s0.log ++ [.notify cl.depId] ∧
    (∀ x, newVal = .ref x → eligible s0 x →
      ∃ ox cx, (logEv (updateFieldsSt q.2 r k
          { sl with val := newVal, reactive := some { cl with childOb := q.1.1 } })
          (.notify cl.depId)).conts[x]? = some cx ∧ cx.obId = some ox) := by
  have hc1 : getCont (updateFieldsSt s0 r k { sl with val := newVal }) r =
      some { c0 with fields := setField c0.fields k { sl with val := newVal } } :=
    getCont_updateFieldsSt_self hc
  have hfr : q.2.conts[r]? =
      some { c0 with fields := setField c0.fields k { sl with val := newVal } } := by
    rw [← hq]
    exact step_frame (f + 1) _ _ r _ hc1 (by simp [ho]) trivial
  refine ⟨?_, ?_, ?_⟩
  · show getSlot (updateFieldsSt q.2 r k _) r k = _
    unfold getSlot
    rw [getCont_updateFieldsSt_self (show getCont q.2 r = _ from hfr)]
    exact lookupField_setField _ _ _
  · show (updateFieldsSt q.2 r k _).log ++ [Ev.notify cl.depId] = _
    rw [log_updateFieldsSt, show q.2.log =
      (updateFieldsSt s0 r k { sl with val := newVal }).log from by
        rw [← hq]; exact (step_sub (f + 1) _ _).lg, log_updateFieldsSt]
  · intro x hx helig
    subst hx
    obtain ⟨ox, cx, hcx, hox⟩ := obs_attaches f
      (updateFieldsSt s0 r k { sl with val := Val.ref x }) x false
      (eligible_updateFieldsSt s0 r k _ helig)
    rw [hq] at hcx
    obtain ⟨cx', hcx', hox'⟩ :=
      obId_updateFieldsSt q.2 r k _ x ox ⟨cx, hcx, hox⟩
    exact ⟨ox, cx', hcx', hox'⟩

/-- Unfolding of a write to a single-closure reactive slot. -/
theorem writeProp_reactive (fuel : Nat) (s : St) (r : Nat) (k : String)
    (sl : PropSlot) (cl : ReactClos) (c : Container) (newVal : Val)
    (hc : getCont s r = some c) (hsl : lookupField c.fields k = some sl)
    (hr : sl.reactive = some cl) (hb : sl.below = []) :
    writeProp fuel s r k newVal =
      setterBody fuel r k newVal 0 cl true (setterGo fuel r k newVal 1 []) s := by
  simp only [writeProp, hc, hsl, hr, reactiveSet, hb, setterGo]
  rfl

/-- observe on a primitive or undefined argument returns immediately. -/
theorem obs_prim (fuel : Nat) (s : St) (v : Val) (a : Bool)
    (h : isPrimOrUndef v = true) :
    step (fuel + 1) (.obs v a) s = ((none, .undef), s) := by
  cases v with
  | ref x => simp [isPrimOrUndef] at h
  | undef => rfl
  | prim n => rfl
  | nan => rfl

/-- A write through a level whose captured pair has a setter: the log gains
the optional customSetter entry, one callSetter entry and this level's
notify — the observe refresh in between logs nothing. -/
theorem setterBody_setter_log (fuel : Nat) (r : Nat) (k : String)
    (newVal : Val) (d : Nat) (cl : ReactClos) (inner : St → St) (s : St)
    (sl : PropSlot) (hgs : getSlot s r k = some sl)
    (hneq : (jsEq newVal (slotValue sl) ||
      (isNaNv newVal && isNaNv (slotValue sl))) = false)
    (hset : sl.hasSetter = true) :
    (setterBody fuel r k newVal d cl true inner s).log =
      s.log ++ (if cl.hasCustomSetter then [Ev.customSetter] else []) ++
        [Ev.callSetter, Ev.notify cl.depId] := by
  have hlg : ∀ st : St, (step fuel (.obs newVal false) st).2.log = st.log :=
    fun st => (step_sub fuel (.obs newVal false) st).lg
  unfold setterBody
  simp only [hgs, hneq, Bool.false_eq_true, if_false, Bool.false_or,
    Bool.not_true, Bool.and_false, if_true, hset]
  cases hcs : cl.hasCustomSetter <;> cases hsh : cl.shallow <;>
    simp only [hcs, hsh, if_true, if_false, Bool.false_eq_true] <;>
    (first | split | skip) <;>
    simp [logEv, log_updateFieldsSt, observe, hlg] <;>
    (first | split | skip) <;>
    (try simp [logEv, log_updateFieldsSt, hlg]) <;>
    (try simp [hlg])

/-- Claim C2 (amended to reactive properties installed directly over a
plain slot, not re-installed over an earlier reactive pair; a pre-existing
getter without setter drops the write instead, see the counterexample):
writing a value identical to the current one (including both values NaN)
returns with the state exactly unchanged.  Writing a different value to a
plain data property of a deep closure stores it, refreshes childOb by
observing the new value (which thereby acquires a wrapper whenever it is an
eligible container) and logs exactly one notify on the property's own Dep —
on observed hosts, and on arbitrary hosts (the props and injection objects
of the source are installed unobserved) when the new value is not itself a
container.  A shallow closure stores the value and notifies exactly once
without observing anything.  A slot whose original pair had a setter routes
the write through that setter — exactly one callSetter — and still notifies
exactly once. -/
theorem C2_setter_amended (fuel : Nat) (s : St) (r : Nat) (k : String)
    (sl : PropSlot) (cl : ReactClos) (c : Container) (newVal : Val)
    (hc : getCont s r = some c) (hsl : lookupField c.fields k = some sl)
    (hr : sl.reactive = some cl) (hb : sl.below = []) (hf : 0 < fuel) :
    ((jsEq newVal (slotValue sl) ||
        (isNaNv newVal && isNaNv (slotValue sl))) = true →
      writeProp fuel s r k newVal = s) ∧
    ((jsEq newVal (slotValue sl) ||
        (isNaNv newVal && isNaNv (slotValue sl))) = false →
      (sl.getterVal = none → sl.hasSetter = false → cl.shallow = false →
        (c.obId.isSome = true ∨ isPrimOrUndef newVal = true) →
        ∃ (co : Option Nat) (l : List Ev),
          getSlot (writeProp fuel s r k newVal) r k =
            some { sl with val := newVal,
                           reactive := some { cl with childOb := co } } ∧
          (writeProp fuel s r k newVal).log = s.log ++ l ++ [.notify cl.depId] ∧
          notifyCount l = 0 ∧
          (∀ x, newVal = .ref x → eligible s x →
            ∃ ox cx, (writeProp fuel s r k newVal).conts[x]? = some cx ∧
              cx.obId = some ox)) ∧
      (sl.getterVal = none → sl.hasSetter = false → cl.shallow = true →
        getSlot (writeProp fuel s r k newVal) r k =
          some { sl with val := newVal,
                         reactive := some { cl with childOb := none } } ∧
        (writeProp fuel s r k newVal).log =
          s.log ++ (if cl.hasCustomSetter then [Ev.customSetter] else []) ++
            [.notify cl.depId] ∧
        (writeProp fuel s r k newVal).obs = s.obs ∧
        (writeProp fuel s r k newVal).deps = s.deps) ∧
      (sl.hasSetter = true →
        (writeProp fuel s r k newVal).log =
          s.log ++ (if cl.hasCustomSetter then [Ev.customSetter] else []) ++
            [Ev.callSetter, .notify cl.depId])) := by
  have hgs : getSlot s r k = some sl := by simp [getSlot, hc, hsl]
  have hw0 := writeProp_reactive fuel s r k sl cl c newVal hc hsl hr hb
  constructor
  · intro hcnd
    rw [hw0]
    unfold setterBody
    simp [hgs, hcnd]
  · intro hcnd
    refine ⟨?_, ?_, ?_⟩
    · intro hg hset hshallow hhost
      obtain ⟨slval, slcfg, slg, slset, slr, slb⟩ := sl
      have hg2 : slg = none := hg
      have hset3 : slset = false := hset
      have hb2 : slb = [] := hb
      have hr2 : slr = some cl := hr
      subst hg2
      subst hset3
      subst hb2
      subst hr2
      obtain ⟨cld, clco, clsh, clcs⟩ := cl
      have hsh2 : clsh = false := hshallow
      subst hsh2
      have hcnd2 : (jsEq newVal slval || (isNaNv newVal && isNaNv slval)) = false := by
        simpa [slotValue] using hcnd
      rcases Nat.exists_eq_succ_of_ne_zero (show fuel ≠ 0 by omega) with ⟨f, rfl⟩
      rcases hhost with hobs | hprim
      · obtain ⟨o, ho⟩ := Option.isSome_iff_exists.mp hobs
        cases hcs : clcs with
        | false =>
          subst hcs
          have hc2 : getCont s r = some c := hc
          have hfr : (step (f + 1) (.obs newVal false) (updateFieldsSt s r k { val := newVal, configurable := slcfg, reactive := some ⟨cld, clco, false, false⟩ })).2.conts[r]? = some { c with fields := setField c.fields k { val := newVal, configurable := slcfg, reactive := some ⟨cld, clco, false, false⟩ } } :=
            step_frame (f + 1) (.obs newVal false) _ r _ (getCont_updateFieldsSt_self hc2) (by simp [ho]) trivial
          have hslot2 : getSlot (step (f + 1) (.obs newVal false) (updateFieldsSt s r k { val := newVal, configurable := slcfg, reactive := some ⟨cld, clco, false, false⟩ })).2 r k = some { val := newVal, configurable := slcfg, reactive := some ⟨cld, clco, false, false⟩ } := by
            simp only [getSlot, getCont]
            rw [hfr]
            exact lookupField_setField _ _ _
          have hw : writeProp (f + 1) s r k newVal = logEv (updateFieldsSt (step (f + 1) (.obs newVal false) (updateFieldsSt s r k { val := newVal, configurable := slcfg, reactive := some ⟨cld, clco, false, false⟩ })).2 r k { val := newVal, configurable := slcfg, reactive := some ⟨cld, (step (f + 1) (.obs newVal false) (updateFieldsSt s r k { val := newVal, configurable := slcfg, reactive := some ⟨cld, clco, false, false⟩ })).1.1, false, false⟩ }) (.notify cld) := by
            rw [hw0]
            unfold setterBody
            simp [hgs, slotValue, hcnd2, observe, hslot2, setChildAt]
          rw [hw]
          obtain ⟨h1, h2, h3⟩ := C2aux f s r k { val := newVal, configurable := slcfg, reactive := some ⟨cld, clco, false, false⟩ } ⟨cld, clco, false, false⟩ o c newVal _ rfl hc2 ho
          refine ⟨(step (f + 1) (.obs newVal false) (updateFieldsSt s r k { val := newVal, configurable := slcfg, reactive := some ⟨cld, clco, false, false⟩ })).1.1, [], ?_, ?_, rfl, h3⟩
          · exact h1
          · rw [h2]
            simp
        | true =>
          subst hcs
          have hc2 : getCont (logEv s .customSetter) r = some c := hc
          have hfr : (step (f + 1) (.obs newVal false) (updateFieldsSt (logEv s .customSetter) r k { val := newVal, configurable := slcfg, reactive := some ⟨cld, clco, false, true⟩ })).2.conts[r]? = some { c with fields := setField c.fields k { val := newVal, configurable := slcfg, reactive := some ⟨cld, clco, false, true⟩ } } :=
            step_frame (f + 1) (.obs newVal false) _ r _ (getCont_updateFieldsSt_self hc2) (by simp [ho]) trivial
          have hslot2 : getSlot (step (f + 1) (.obs newVal false) (updateFieldsSt (logEv s .customSetter) r k { val := newVal, configurable := slcfg, reactive := some ⟨cld, clco, false, true⟩ })).2 r k = some { val := newVal, configurable := slcfg, reactive := some ⟨cld, clco, false, true⟩ } := by
            simp only [getSlot, getCont]
            rw [hfr]
            exact lookupField_setField _ _ _
          have hw : writeProp (f + 1) s r k newVal = logEv (updateFieldsSt (step (f + 1) (.obs newVal false) (updateFieldsSt (logEv s .customSetter) r k { val := newVal, configurable := slcfg, reactive := some ⟨cld, clco, false, true⟩ })).2 r k { val := newVal, configurable := slcfg, reactive := some ⟨cld, (step (f + 1) (.obs newVal false) (updateFieldsSt (logEv s .customSetter) r k { val := newVal, configurable := slcfg, reactive := some ⟨cld, clco, false, true⟩ })).1.1, false, true⟩ }) (.notify cld) := by
            rw [hw0]
            unfold setterBody
            simp [hgs, slotValue, hcnd2, observe, hslot2, setChildAt]
          rw [hw]
          obtain ⟨h1, h2, h3⟩ := C2aux f (logEv s .customSetter) r k { val := newVal, configurable := slcfg, reactive := some ⟨cld, clco, false, true⟩ } ⟨cld, clco, false, true⟩ o c newVal _ rfl hc2 ho
          refine ⟨(step (f + 1) (.obs newVal false) (updateFieldsSt (logEv s .customSetter) r k { val := newVal, configurable := slcfg, reactive := some ⟨cld, clco, false, true⟩ })).1.1, [.customSetter], ?_, ?_, rfl, fun x hx he => h3 x hx (eligible_logEv he)⟩
          · exact h1
          · rw [h2]
            simp [logEv]
      · cases hcs : clcs with
        | false =>
          subst hcs
          have hc2 : getCont s r = some c := hc
          have hq : step (f + 1) (.obs newVal false) (updateFieldsSt s r k { val := newVal, configurable := slcfg, reactive := some ⟨cld, clco, false, false⟩ }) = ((none, .undef), (updateFieldsSt s r k { val := newVal, configurable := slcfg, reactive := some ⟨cld, clco, false, false⟩ })) := obs_prim f _ newVal false hprim
          have hslot2 : getSlot (updateFieldsSt s r k { val := newVal, configurable := slcfg, reactive := some ⟨cld, clco, false, false⟩ }) r k = some { val := newVal, configurable := slcfg, reactive := some ⟨cld, clco, false, false⟩ } := by
            unfold getSlot
            rw [getCont_updateFieldsSt_self hc2]
            exact lookupField_setField _ _ _
          have hw : writeProp (f + 1) s r k newVal = logEv (updateFieldsSt (updateFieldsSt s r k { val := newVal, configurable := slcfg, reactive := some ⟨cld, clco, false, false⟩ }) r k { val := newVal, configurable := slcfg, reactive := some ⟨cld, none, false, false⟩ }) (.notify cld) := by
            rw [hw0]
            unfold setterBody
            simp [hgs, slotValue, hcnd2, observe, hq, hslot2, setChildAt]
          rw [hw]
          refine ⟨none, [], ?_, ?_, rfl, ?_⟩
          · unfold getSlot
            rw [getCont_logEv, getCont_updateFieldsSt_self (getCont_updateFieldsSt_self hc2)]
            exact lookupField_setField _ _ _
          · simp [logEv, log_updateFieldsSt]
          · intro x hx he
            rw [hx] at hprim
            simp [isPrimOrUndef] at hprim
        | true =>
          subst hcs
          have hc2 : getCont (logEv s .customSetter) r = some c := hc
          have hq : step (f + 1) (.obs newVal false) (updateFieldsSt (logEv s .customSetter) r k { val := newVal, configurable := slcfg, reactive := some ⟨cld, clco, false, true⟩ }) = ((none, .undef), (updateFieldsSt (logEv s .customSetter) r k { val := newVal, configurable := slcfg, reactive := some ⟨cld, clco, false, true⟩ })) := obs_prim f _ newVal false hprim
          have hslot2 : getSlot (updateFieldsSt (logEv s .customSetter) r k { val := newVal, configurable := slcfg, reactive := some ⟨cld, clco, false, true⟩ }) r k = some { val := newVal, configurable := slcfg, reactive := some ⟨cld, clco, false, true⟩ } := by
            unfold getSlot
            rw [getCont_updateFieldsSt_self hc2]
            exact lookupField_setField _ _ _
          have hw : writeProp (f + 1) s r k newVal = logEv (updateFieldsSt (updateFieldsSt (logEv s .customSetter) r k { val := newVal, configurable := slcfg, reactive := some ⟨cld, clco, false, true⟩ }) r k { val := newVal, configurable := slcfg, reactive := some ⟨cld, none, false, true⟩ }) (.notify cld) := by
            rw [hw0]
            unfold setterBody
            simp [hgs, slotValue, hcnd2, observe, hq, hslot2, setChildAt]
          rw [hw]
          refine ⟨none, [.customSetter], ?_, ?_, rfl, ?_⟩
          · unfold getSlot
            rw [getCont_logEv, getCont_updateFieldsSt_self (getCont_updateFieldsSt_self hc2)]
            exact lookupField_setField _ _ _
          · simp [logEv, log_updateFieldsSt]
          · intro x hx he
            rw [hx] at hprim
            simp [isPrimOrUndef] at hprim
    · intro hg hset hshallow
      obtain ⟨slval, slcfg, slg, slset, slr, slb⟩ := sl
      have hg2 : slg = none := hg
      have hset3 : slset = false := hset
      have hb2 : slb = [] := hb
      have hr2 : slr = some cl := hr
      subst hg2
      subst hset3
      subst hb2
      subst hr2
      obtain ⟨cld, clco, clsh, clcs⟩ := cl
      have hsh2 : clsh = true := hshallow
      subst hsh2
      have hcnd2 : (jsEq newVal slval || (isNaNv newVal && isNaNv slval)) = false := by
        simpa [slotValue] using hcnd
      cases hcs : clcs with
      | false =>
        subst hcs
        have hc2 : getCont s r = some c := hc
        have hslot2 : getSlot (updateFieldsSt s r k { val := newVal, configurable := slcfg, reactive := some ⟨cld, clco, true, false⟩ }) r k = some { val := newVal, configurable := slcfg, reactive := some ⟨cld, clco, true, false⟩ } := by
          unfold getSlot
          rw [getCont_updateFieldsSt_self hc2]
          exact lookupField_setField _ _ _
        have hw : writeProp fuel s r k newVal = logEv (updateFieldsSt (updateFieldsSt s r k { val := newVal, configurable := slcfg, reactive := some ⟨cld, clco, true, false⟩ }) r k { val := newVal, configurable := slcfg, reactive := some ⟨cld, none, true, false⟩ }) (.notify cld) := by
          rw [hw0]
          unfold setterBody
          simp [hgs, slotValue, hcnd2, hslot2, setChildAt]
        rw [hw]
        refine ⟨?_, ?_, ?_, ?_⟩
        · unfold getSlot
          rw [getCont_logEv, getCont_updateFieldsSt_self (getCont_updateFieldsSt_self hc2)]
          exact lookupField_setField _ _ _
        · simp [logEv, log_updateFieldsSt]
        · simp [logEv, obs_updateFieldsSt]
        · simp [logEv, deps_updateFieldsSt]
      | true =>
        subst hcs
        have hc2 : getCont (logEv s .customSetter) r = some c := hc
        have hslot2 : getSlot (updateFieldsSt (logEv s .customSetter) r k { val := newVal, configurable := slcfg, reactive := some ⟨cld, clco, true, true⟩ }) r k = some { val := newVal, configurable := slcfg, reactive := some ⟨cld, clco, true, true⟩ } := by
          unfold getSlot
          rw [getCont_updateFieldsSt_self hc2]
          exact lookupField_setField _ _ _
        have hw : writeProp fuel s r k newVal = logEv (updateFieldsSt (updateFieldsSt (logEv s .customSetter) r k { val := newVal, configurable := slcfg, reactive := some ⟨cld, clco, true, true⟩ }) r k { val := newVal, configurable := slcfg, reactive := some ⟨cld, none, true, true⟩ }) (.notify cld) := by
          rw [hw0]
          unfold setterBody
          simp [hgs, slotValue, hcnd2, hslot2, setChildAt]
        rw [hw]
        refine ⟨?_, ?_, ?_, ?_⟩
        · unfold getSlot
          rw [getCont_logEv, getCont_updateFieldsSt_self (getCont_updateFieldsSt_self hc2)]
          exact lookupField_setField _ _ _
        · simp [logEv, log_updateFieldsSt]
        · simp [logEv, obs_updateFieldsSt]
        · simp [logEv, deps_updateFieldsSt]
    · intro hset2
      rw [hw0]
      exact setterBody_setter_log fuel r k newVal 0 cl _ s sl hgs hcnd hset2

/-- A reactive plain data property p with value 1 on an observed host, the
concrete input of the C2 witness. -/
def st2 : St :=
  { conts :=
      [{ kind := .plainObj, obId := some 0,
         fields :=
           [("p", { val := .prim 1,
                    reactive := some ⟨0, none, false, false⟩ })] }],
    obs := [{ valueRef := 0, depId := 1 }],
    deps := [{ subs := [] }, { subs := [] }] }

/-- A shallow reactive data property on an unobserved host, the concrete
input of the shallow conjunct of the C2 witness. -/
def st2s : St :=
  { conts :=
      [{ kind := .plainObj,
         fields :=
           [("p", { val := .prim 1,
                    reactive := some ⟨0, none, true, false⟩ })] }],
    deps := [{ subs := [] }] }

/-- A reactive property over a raw accessor pair with a setter on an
unobserved host, the concrete input of the setter-routing conjunct of the
C2 witness. -/
def st2t : St :=
  { conts :=
      [{ kind := .plainObj,
         fields :=
           [("p", { val := .undef, getterVal := some (.prim 1),
                    hasSetter := true,
                    reactive := some ⟨0, none, false, false⟩ })] }],
    deps := [{ subs := [] }] }

/-- Witness for the amended C2: an identical write on p is the identity; a
differing write stores 2, logs exactly one notify on the property's Dep;
on the shallow slot the write stores 2, drops childOb and notifies without
observing; on the setter slot the write routes through the raw setter and
notifies. -/
theorem C2_setter_amended_witness :
    (writeProp 5 st2 0 "p" (.prim 1) = st2) ∧
    (∃ (co : Option Nat) (l : List Ev),
        getSlot (writeProp 5 st2 0 "p" (.prim 2)) 0 "p" =
          some { val := .prim 2, reactive := some ⟨0, co, false, false⟩ } ∧
        (writeProp 5 st2 0 "p" (.prim 2)).log = st2.log ++ l ++ [.notify 0] ∧
        notifyCount l = 0) ∧
    (getSlot (writeProp 5 st2s 0 "p" (.prim 2)) 0 "p" =
        some { val := .prim 2, reactive := some ⟨0, none, true, false⟩ } ∧
      (writeProp 5 st2s 0 "p" (.prim 2)).log = [Ev.notify 0] ∧
      (writeProp 5 st2s 0 "p" (.prim 2)).obs = st2s.obs) ∧
    ((writeProp 5 st2t 0 "p" (.prim 2)).log = [Ev.callSetter, Ev.notify 0]) := by
  have hA := C2_setter_amended 5 st2 0 "p"
    { val := .prim 1, reactive := some ⟨0, none, false, false⟩ }
    ⟨0, none, false, false⟩
    { kind := .plainObj, obId := some 0,
      fields := [("p", { val := .prim 1, reactive := some ⟨0, none, false, false⟩ })] }
    (.prim 1)
    (by decide) (by decide) (by decide) (by decide) (by decide)
  have hB := C2_setter_amended 5 st2 0 "p"
    { val := .prim 1, reactive := some ⟨0, none, false, false⟩ }
    ⟨0, none, false, false⟩
    { kind := .plainObj, obId := some 0,
      fields := [("p", { val := .prim 1, reactive := some ⟨0, none, false, false⟩ })] }
    (.prim 2)
    (by decide) (by decide) (by decide) (by decide) (by decide)
  have hC := C2_setter_amended 5 st2s 0 "p"
    { val := .prim 1, reactive := some ⟨0, none, true, false⟩ }
    ⟨0, none, true, false⟩
    { kind := .plainObj,
      fields := [("p", { val := .prim 1, reactive := some ⟨0, none, true, false⟩ })] }
    (.prim 2)
    (by decide) (by decide) (by decide) (by decide) (by decide)
  have hD := C2_setter_amended 5 st2t 0 "p"
    { val := .undef, getterVal := some (.prim 1), hasSetter := true,
      reactive := some ⟨0, none, false, false⟩ }
    ⟨0, none, false, false⟩
    { kind := .plainObj,
      fields := [("p", { val := .undef, getterVal := some (.prim 1),
                         hasSetter := true,
                         reactive := some ⟨0, none, false, false⟩ })] }
    (.prim 2)
    (by decide) (by decide) (by decide) (by decide) (by decide)
  refine ⟨hA.1 (by decide), ?_, ?_, ?_⟩
  · obtain ⟨co, l, h1, h2, h3, -⟩ :=
      ((hB.2 (by decide)).1 (by decide) (by decide) (by decide)
        (Or.inl (by decide)))
    exact ⟨co, l, h1, h2, h3⟩
  · obtain ⟨h1, h2, h3, -⟩ :=
      ((hC.2 (by decide)).2.1 (by decide) (by decide) (by decide))
    exact ⟨h1, by simpa using h2, h3⟩
  · have h := (hD.2 (by decide)).2.2 (by decide)
    simpa using h

theorem eligible_sub {s s' : St} (hsub : Sub s s') {x : Nat}
    (h : eligible s x) : eligible s' x := by
  obtain ⟨c, hx, hvn, he⟩ := h
  obtain ⟨c', hx', hkind, helems, hvue, hvnode, hext, hobp⟩ := hsub.cont x c hx
  refine ⟨c', hx', by rw [hvnode]; exact hvn, ?_⟩
  rcases he with he | he
  · left
    cases hoo : c.obId with
    | none => rw [hoo] at he; cases he
    | some o2 => rw [hobp o2 hoo]; rfl
  · right
    exact ⟨by rw [hsub.sh]; exact he.1, by rw [hkind]; exact he.2.1,
      by rw [hext]; exact he.2.2.1, by rw [hvue]; exact he.2.2.2⟩

theorem eligible_setElems (s : St) (r : Nat) (es : List Val) {x : Nat}
    (h : eligible s x) : eligible (setElems s r es) x := by
  obtain ⟨c, hx, hvn, he⟩ := h
  unfold setElems
  cases hc : getCont s r with
  | none => exact ⟨c, hx, hvn, he⟩
  | some c0 =>
    by_cases heq : r = x
    · subst heq
      rw [show getCont s r = s.conts[r]? from rfl, hx] at hc
      injection hc with hc2
      subst hc2
      have hlt : r < s.conts.length := (List.getElem?_eq_some_iff.mp hx).1
      refine ⟨{ c with elems := es }, ?_, hvn, he⟩
      simp [setCont, List.getElem?_set, hlt]
    · refine ⟨c, ?_, hvn, he⟩
      simp [setCont, List.getElem?_set, heq, hx]

theorem log_setElems (s : St) (r : Nat) (es : List Val) :
    (setElems s r es).log = s.log := by
  unfold setElems
  cases getCont s r <;> rfl

theorem obsList_setElems (s : St) (r : Nat) (es : List Val) :
    (setElems s r es).obs = s.obs := by
  unfold setElems
  cases getCont s r <;> rfl

theorem conts_logEv (s : St) (e : Ev) : (logEv s e).conts = s.conts := rfl

theorem obsDepId_eq {s : St} {o : Nat} {ob : ObData} (h : s.obs[o]? = some ob) :
    obsDepId s o = ob.depId := by simp [obsDepId, h]

theorem notifiesOf_append (l l' : List Ev) :
    notifiesOf (l ++ l') = notifiesOf l ++ notifiesOf l' := by
  simp [notifiesOf]

/-- observeArray over a list that fits in the fuel attaches a wrapper to
every eligible container in the list. -/
theorem obsList_attaches : ∀ (vs : List Val) (fuel : Nat) (s : St) (x : Nat),
    vs.length < fuel → Val.ref x ∈ vs → eligible s x →
    ∃ ox cx, (step fuel (.obsList vs) s).2.conts[x]? = some cx ∧
      cx.obId = some ox := by
  intro vs
  induction vs with
  | nil =>
    intro fuel s x hlen hmem
    cases hmem
  | cons v rest ihv =>
    intro fuel s x hlen hmem helig
    rcases Nat.exists_eq_succ_of_ne_zero (show fuel ≠ 0 by omega) with ⟨f, rfl⟩
    simp only [step]
    rcases List.mem_cons.mp hmem with hhead | htail
    · subst hhead
      obtain ⟨f', rfl⟩ : ∃ f', f = f' + 1 :=
        ⟨f - 1, by simp only [List.length_cons] at hlen; omega⟩
      obtain ⟨ox, cx, hcx, hox⟩ := obs_attaches f' s x false helig
      obtain ⟨cx', hcx', _, _, _, _, _, hobp⟩ :=
        (step_sub (f' + 1) (.obsList rest) _).cont x cx hcx
      exact ⟨ox, cx', hcx', hobp ox hox⟩
    · exact ihv f _ x (by simp only [List.length_cons] at hlen; omega) htail
        (eligible_sub (step_sub f (.obs v false) s) helig)

/-- Claim C3: each of the seven intercepted structural operations invokes
the original semantics (the result and new element list are exactly those
of originalApply), observes the newly inserted elements (all arguments for
push and unshift, the arguments after the first two for splice, none for
the others — every eligible inserted container acquires a wrapper), logs
exactly one notify, on the container's own Dep, and returns the original
result unchanged. -/
theorem C3_mutator (fuel : Nat) (s : St) (r : Nat) (m : ArrM) (args : List Val)
    (c : Container) (o : Nat) (ob : ObData)
    (hc : getCont s r = some c) (hk : c.kind = .arr) (ho : c.obId = some o)
    (hob : s.obs[o]? = some ob)
    (hfuel : ((insertedOf m args).getD []).length < fuel) :
    (mutatorRun fuel s r m args).1 = (originalApply m args c.elems).1 ∧
    (∃ c', (mutatorRun fuel s r m args).2.conts[r]? = some c' ∧
      c'.elems = (originalApply m args c.elems).2) ∧
    notifiesOf (mutatorRun fuel s r m args).2.log =
      notifiesOf s.log ++ [ob.depId] ∧
    (∀ x, Val.ref x ∈ (insertedOf m args).getD [] → eligible s x →
      ∃ ox cx, (mutatorRun fuel s r m args).2.conts[x]? = some cx ∧
        cx.obId = some ox) := by
  have hlt : r < s.conts.length := (List.getElem?_eq_some_iff.mp hc).1
  have hs1c : (setElems s r (originalApply m args c.elems).2).conts[r]? =
      some { c with elems := (originalApply m args c.elems).2 } := by
    unfold setElems
    rw [hc]
    simp [setCont, List.getElem?_set, hlt]
  have hs1obs : (setElems s r (originalApply m args c.elems).2).obs = s.obs :=
    obsList_setElems s r _
  have hs1log : (setElems s r (originalApply m args c.elems).2).log = s.log :=
    log_setElems s r _
  simp only [mutatorRun, hc, ho]
  split
  · rename_i ins hins
    have hsub := step_sub fuel (.obsList ins) (setElems s r (originalApply m args c.elems).2)
    refine ⟨trivial, ?_, ?_, ?_⟩
    · obtain ⟨c', hc', _, helems, _, _, _, _⟩ := hsub.cont r _ hs1c
      refine ⟨c', ?_, ?_⟩
      · rw [conts_logEv]
        exact hc'
      · rw [helems]
    · simp only [logEv, notifiesOf_append]
      rw [hsub.lg, hs1log]
      obtain ⟨ob', hob', hdep, _⟩ := hsub.obsd o ob (by rw [hs1obs]; exact hob)
      rw [obsDepId_eq hob', hdep]
      simp [notifiesOf]
    · intro x hx helig
      rw [hins] at hx
      simp only [Option.getD_some] at hx
      obtain ⟨ox, cx, hcx, hox⟩ := obsList_attaches ins fuel
        (setElems s r (originalApply m args c.elems).2) x
        (by rw [hins] at hfuel; simpa using hfuel) hx
        (eligible_setElems s r _ helig)
      refine ⟨ox, cx, ?_, hox⟩
      rw [conts_logEv]
      exact hcx
  · rename_i hins
    refine ⟨trivial, ⟨{ c with elems := (originalApply m args c.elems).2 }, ?_, rfl⟩, ?_, ?_⟩
    · rw [conts_logEv]
      exact hs1c
    · simp only [logEv, notifiesOf_append, hs1log]
      rw [obsDepId_eq (show (setElems s r (originalApply m args c.elems).2).obs[o]? =
        some ob from by rw [hs1obs]; exact hob)]
      simp [notifiesOf]
    · intro x hx
      rw [hins] at hx
      simp at hx

/-- An observed one-element array plus a fresh plain object to be pushed,
the concrete input of the C3 witness. -/
def st3 : St :=
  { conts :=
      [{ kind := .arr, elems := [.prim 1], obId := some 0 },
       { kind := .plainObj, fields := [("q", { val := .prim 7 })] }],
    obs := [{ valueRef := 0, depId := 0 }],
    deps := [{ subs := [] }] }

/-- Witness for C3: pushing the object container 1 onto the observed array
returns the new length 2, stores both elements, notifies the array's Dep
exactly once and observes the pushed object. -/
theorem C3_mutator_witness :
    (mutatorRun 5 st3 0 .push [.ref 1]).1 = (originalApply .push [.ref 1] [.prim 1]).1 ∧
    (∃ c', (mutatorRun 5 st3 0 .push [.ref 1]).2.conts[0]? = some c' ∧
      c'.elems = (originalApply .push [.ref 1] [.prim 1]).2) ∧
    notifiesOf (mutatorRun 5 st3 0 .push [.ref 1]).2.log = notifiesOf st3.log ++ [0] ∧
    (∀ x, Val.ref x ∈ (insertedOf ArrM.push [.ref 1]).getD [] → eligible st3 x →
      ∃ ox cx, (mutatorRun 5 st3 0 .push [.ref 1]).2.conts[x]? = some cx ∧
        cx.obId = some ox) :=
  C3_mutator 5 st3 0 .push [.ref 1]
    { kind := .arr, elems := [.prim 1], obId := some 0 } 0
    { valueRef := 0, depId := 0 }
    (by decide) (by decide) (by decide) (by decide) (by decide)

theorem obs_setCont (s : St) (r : Nat) (c : Container) :
    (setCont s r c).obs = s.obs := rfl

/-- A root $data object (vmCount 1) with one own field, the concrete input
of the C8 counterexample. -/
def st8c : St :=
  { conts :=
      [{ kind := .plainObj, obId := some 0,
         fields := [("a", { val := .prim 1 })] }],
    obs := [{ valueRef := 0, depId := 0, vmCount := 1 }],
    deps := [{ subs := [] }] }

/-- Counterexample to claim C8 as stated: st8c holds a plain observed
object whose own key a is present, yet del deletes nothing and notifies
nothing — the container serves as root $data, so the guard warns and
returns before hasOwn is even consulted, where the claim demands deletion
plus an unconditional notify for every plain observed object. -/
theorem C8_counterexample :
    delK 5 st8c (.ref 0) (.s "a") = logEv st8c .warn ∧
    getSlot (delK 5 st8c (.ref 0) (.s "a")) 0 "a" = some { val := .prim 1 } ∧
    notifyCount (delK 5 st8c (.ref 0) (.s "a")).log = 0 := by decide

/-- Claim C8 amended (the original claim fails on root $data objects, see
the counterexample): del on a Vue instance or a root $data object only
warns — nothing is deleted, nothing notified.  On a plain observed
non-root object: a key that is not an own property — the attached
back-reference counting as own — is a complete no-op; an own field key is
deleted and ob.dep.notify() fires unconditionally (the value never enters
the decision); deleting the back-reference key itself detaches the wrapper
and still notifies. -/
theorem C8_del_amended (fuel : Nat) (s : St) (r : Nat) (k : String)
    (c : Container) (hc : getCont s r = some c) (hk : c.kind = .plainObj) :
    (rootGuard s c = true → delK fuel s (.ref r) (.s k) = logEv s .warn) ∧
    (∀ o ob, c.isVue = false → c.obId = some o → s.obs[o]? = some ob →
      ob.vmCount = 0 →
      (hasOwnField c k = false → delK fuel s (.ref r) (.s k) = s) ∧
      (∀ sl, lookupField c.fields k = some sl →
        delK fuel s (.ref r) (.s k) =
          logEv (setCont s r { c with fields := eraseField c.fields k })
            (.notify ob.depId)) ∧
      (k = "__ob__" → lookupField c.fields k = none →
        delK fuel s (.ref r) (.s k) =
          logEv (setCont s r { c with obId := none, obRaw := none })
            (.notify ob.depId))) := by
  constructor
  · intro hrg
    simp [delK, isPrimOrUndef, hc, isIdx, hk, hrg]
  · intro o ob hvue ho hob hvm
    have hrg : rootGuard s c = false := by
      simp [rootGuard, hvue, ho, obsVm, hob, hvm]
    refine ⟨?_, ?_, ?_⟩
    · intro hown
      simp [delK, isPrimOrUndef, hc, isIdx, hk, hrg, keyStr, hown]
    · intro sl hsl
      have hown : hasOwnField c k = true := by
        unfold hasOwnField
        split
        · simp [ho]
        · simp [hsl]
      simp [delK, isPrimOrUndef, hc, isIdx, hk, hrg, keyStr, hown, hsl, ho,
        obsDepId, obs_setCont, hob]
    · intro hkob hnf
      subst hkob
      have hown : hasOwnField c "__ob__" = true := by
        simp [hasOwnField, ho]
      simp [delK, isPrimOrUndef, hc, isIdx, hk, hrg, keyStr, hown, hnf, ho,
        obsDepId, obs_setCont, hob]

/-- A plain observed non-root object with one field, the concrete input of
the C8 witness. -/
def st8 : St :=
  { conts :=
      [{ kind := .plainObj, obId := some 0,
         fields := [("a", { val := .prim 1 })] }],
    obs := [{ valueRef := 0, depId := 0 }],
    deps := [{ subs := [] }] }

/-- Witness for the amended C8: del on the root $data object st8c only
warns; on the non-root st8 the missing key b is a no-op, deleting a erases
it and notifies, and deleting the back-reference detaches the wrapper and
notifies. -/
theorem C8_del_amended_witness :
    (delK 5 st8c (.ref 0) (.s "x") = logEv st8c .warn) ∧
    (delK 5 st8 (.ref 0) (.s "b") = st8) ∧
    (delK 5 st8 (.ref 0) (.s "a") =
      logEv (setCont st8 0
        { kind := .plainObj, obId := some 0,
          fields := eraseField [("a", { val := .prim 1 })] "a" }) (.notify 0)) ∧
    (delK 5 st8 (.ref 0) (.s "__ob__") =
      logEv (setCont st8 0
        { kind := .plainObj, obId := none, obRaw := none,
          fields := [("a", { val := .prim 1 })] }) (.notify 0)) := by
  have hroot := C8_del_amended 5 st8c 0 "x"
    { kind := .plainObj, obId := some 0, fields := [("a", { val := .prim 1 })] }
    (by decide) (by decide)
  have hb := C8_del_amended 5 st8 0 "b"
    { kind := .plainObj, obId := some 0, fields := [("a", { val := .prim 1 })] }
    (by decide) (by decide)
  have ha := C8_del_amended 5 st8 0 "a"
    { kind := .plainObj, obId := some 0, fields := [("a", { val := .prim 1 })] }
    (by decide) (by decide)
  have hd := C8_del_amended 5 st8 0 "__ob__"
    { kind := .plainObj, obId := some 0, fields := [("a", { val := .prim 1 })] }
    (by decide) (by decide)
  refine ⟨hroot.1 (by decide), ?_, ?_, ?_⟩
  · exact (hb.2 0 { valueRef := 0, depId := 0 } (by decide) (by decide)
      (by decide) (by decide)).1 (by decide)
  · exact (ha.2 0 { valueRef := 0, depId := 0 } (by decide) (by decide)
      (by decide) (by decide)).2.1 { val := .prim 1 } (by decide)
  · exact (hd.2 0 { valueRef := 0, depId := 0 } (by decide) (by decide)
      (by decide) (by decide)).2.2 (by decide) (by decide)

/-- An observed object owning a reactive property named toString, the
concrete input of the C6 counterexample. -/
def st6 : St :=
  { conts :=
      [{ kind := .plainObj, obId := some 0,
         fields :=
           [("toString", { val := .prim 1,
                           reactive := some ⟨0, none, false, false⟩ })] }],
    obs := [{ valueRef := 0, depId := 1 }],
    deps := [{ subs := [] }, { subs := [] }] }

/-- Counterexample to claim C6 as stated: toString exists as an own,
non-inherited property of the observed object, yet set() does not behave
as a plain reactive write — the key-in-Object.prototype test sends it down
the add-new-key path, which re-defines the property and notifies the
container-level Dep (dep 1), which a plain write never does. -/
theorem C6_counterexample :
    (setK 9 st6 (.ref 0) (.s "toString") (.prim 9)).2 ≠
      writeProp 9 st6 0 "toString" (.prim 9) ∧
    notifiesOf (setK 9 st6 (.ref 0) (.s "toString") (.prim 9)).2.log = [1] := by
  decide

/-- Claim C6 amended: on a plain observed non-root object, set(target, key,
val) routes through the test key in target && !(key in Object.prototype),
where the own keys include the attached back-reference: an own field key
not colliding with an Object.prototype key is a plain reactive write (no
new property definition, no container-level notify); a key that is neither
own nor an Object.prototype key is defined as a new reactive property on
ob.value followed by exactly one notify on the container-level Dep; an
Object.prototype key — own or not — falls through to that same add path;
and the back-reference key takes the plain-write branch, which silently
overwrites the wrapper (no warning, no notify, no defineReactive). -/
theorem C6_set_amended (fuel : Nat) (s : St) (r : Nat) (k : String) (v : Val)
    (c : Container) (o : Nat) (ob : ObData)
    (hc : getCont s r = some c) (hk : c.kind = .plainObj)
    (hvue : c.isVue = false) (ho : c.obId = some o)
    (hob : s.obs[o]? = some ob) (hvm : ob.vmCount = 0) :
    (∀ sl, lookupField c.fields k = some sl → k ∉ objProtoKeys →
      setK fuel s (.ref r) (.s k) v = (v, writeProp fuel s r k v)) ∧
    (hasOwnField c k = false → k ∉ objProtoKeys →
      setK fuel s (.ref r) (.s k) v =
        (v, logEv (defineReactive fuel s (obsValueRef s o) k v)
          (.notify ob.depId))) ∧
    (k ∈ objProtoKeys →
      setK fuel s (.ref r) (.s k) v =
        (v, logEv (defineReactive fuel s (obsValueRef s o) k v)
          (.notify ob.depId))) ∧
    (k = "__ob__" → lookupField c.fields k = none →
      setK fuel s (.ref r) (.s k) v =
        (v, setCont s r { c with obId := none, obRaw := some v })) := by
  have hrg : rootGuard s c = false := by
    simp [rootGuard, hvue, ho, obsVm, hob, hvm]
  have hadd : k ∉ objProtoKeys ∨ True →
      (hasOwnField c k = false ∧ k ∉ objProtoKeys) ∨ k ∈ objProtoKeys →
      setK fuel s (.ref r) (.s k) v =
        (v, logEv (defineReactive fuel s (obsValueRef s o) k v)
          (.notify ob.depId)) := by
    intro _ hcase
    have hsub := step_sub fuel (.defR (obsValueRef s o) k v false false false) s
    obtain ⟨ob2, hob2, hdep2, _⟩ := hsub.obsd o ob hob
    rcases hcase with ⟨hown, hproto⟩ | hproto
    · simp [setK, isPrimOrUndef, hc, isIdx, hk, keyStr, hown, hproto, hrg, ho,
        defineReactive, obsDepId, hob2, hdep2]
    · simp [setK, isPrimOrUndef, hc, isIdx, hk, keyStr, hproto, hrg, ho,
        defineReactive, obsDepId, hob2, hdep2]
  refine ⟨?_, ?_, ?_, ?_⟩
  · intro sl hsl hproto
    have hown : hasOwnField c k = true := by
      unfold hasOwnField
      split
      · simp [ho]
      · simp [hsl]
    simp [setK, isPrimOrUndef, hc, isIdx, hk, keyStr, hown, hproto]
  · intro hown hproto
    exact hadd (Or.inl hproto) (Or.inl ⟨hown, hproto⟩)
  · intro hproto
    exact hadd (Or.inr trivial) (Or.inr hproto)
  · intro hkob hnf
    subst hkob
    have hown : hasOwnField c "__ob__" = true := by
      simp [hasOwnField, ho]
    have hproto : "__ob__" ∉ objProtoKeys := by decide
    simp [setK, isPrimOrUndef, hc, isIdx, hk, keyStr, hown, hproto,
      writeProp, hnf]

/-- A plain observed non-root object with one reactive field, the concrete
input of the C6 witness. -/
def st6w : St :=
  { conts :=
      [{ kind := .plainObj, obId := some 0,
         fields :=
           [("a", { val := .prim 1,
                    reactive := some ⟨0, none, false, false⟩ })] }],
    obs := [{ valueRef := 0, depId := 1 }],
    deps := [{ subs := [] }, { subs := [] }] }

/-- Witness for the amended C6: the own key a routes to the plain reactive
write; the fresh key b is defined reactively with a container-level notify;
the Object.prototype key valueOf takes the same add path; and the
back-reference key silently detaches the wrapper. -/
theorem C6_set_amended_witness :
    (setK 9 st6w (.ref 0) (.s "a") (.prim 5) =
      ((.prim 5), writeProp 9 st6w 0 "a" (.prim 5))) ∧
    (setK 9 st6w (.ref 0) (.s "b") (.prim 5) =
      ((.prim 5), logEv (defineReactive 9 st6w (obsValueRef st6w 0) "b" (.prim 5))
        (.notify 1))) ∧
    (setK 9 st6w (.ref 0) (.s "valueOf") (.prim 5) =
      ((.prim 5), logEv (defineReactive 9 st6w (obsValueRef st6w 0) "valueOf" (.prim 5))
        (.notify 1))) ∧
    (setK 9 st6w (.ref 0) (.s "__ob__") (.prim 5) =
      ((.prim 5), setCont st6w 0
        { kind := .plainObj, obId := none, obRaw := some (.prim 5),
          fields :=
            [("a", { val := .prim 1,
                     reactive := some ⟨0, none, false, false⟩ })] })) := by
  have ha := C6_set_amended 9 st6w 0 "a" (.prim 5)
    { kind := .plainObj, obId := some 0,
      fields := [("a", { val := .prim 1, reactive := some ⟨0, none, false, false⟩ })] }
    0 { valueRef := 0, depId := 1 }
    (by decide) (by decide) (by decide) (by decide) (by decide) (by decide)
  have hb := C6_set_amended 9 st6w 0 "b" (.prim 5)
    { kind := .plainObj, obId := some 0,
      fields := [("a", { val := .prim 1, reactive := some ⟨0, none, false, false⟩ })] }
    0 { valueRef := 0, depId := 1 }
    (by decide) (by decide) (by decide) (by decide) (by decide) (by decide)
  have hv := C6_set_amended 9 st6w 0 "valueOf" (.prim 5)
    { kind := .plainObj, obId := some 0,
      fields := [("a", { val := .prim 1, reactive := some ⟨0, none, false, false⟩ })] }
    0 { valueRef := 0, depId := 1 }
    (by decide) (by decide) (by decide) (by decide) (by decide) (by decide)
  have hw := C6_set_amended 9 st6w 0 "__ob__" (.prim 5)
    { kind := .plainObj, obId := some 0,
      fields := [("a", { val := .prim 1, reactive := some ⟨0, none, false, false⟩ })] }
    0 { valueRef := 0, depId := 1 }
    (by decide) (by decide) (by decide) (by decide) (by decide) (by decide)
  exact ⟨ha.1 { val := .prim 1, reactive := some ⟨0, none, false, false⟩ }
      (by decide) (by decide),
    hb.2.1 (by decide) (by decide), hv.2.2.1 (by decide),
    hw.2.2.2 (by decide) (by decide)⟩

theorem obs_addDepM (s : St) (w d : Nat) : (addDepM s w d).obs = s.obs := by
  unfold addDepM depAdd
  by_cases h : w ∈ subsAt s d
  · rw [if_pos h]
  · rw [if_neg h]
    cases s.deps[d]? <;> rfl

theorem mem_subsAt_addDepM (s : St) (w d : Nat) (hd : d < s.deps.length) :
    w ∈ subsAt (addDepM s w d) d := by
  unfold addDepM
  by_cases h : w ∈ subsAt s d
  · rw [if_pos h]
    exact h
  · rw [if_neg h]
    have hdd : s.deps[d]? = some (s.deps[d]) := List.getElem?_eq_getElem hd
    simp only [depAdd, subsAt, hdd]
    simp [List.getElem?_set, hd]

theorem subsAt_step_mono {fuel : Nat} {t : Task} {s : St} {d w : Nat}
    (h : w ∈ subsAt s d) : w ∈ subsAt (step fuel t s).2 d :=
  (step_sub fuel t s).subsm d w h

/-- A cleared ok flag is never reset: a run that ends with ok also started
with ok. -/
theorem step_ok {fuel : Nat} {t : Task} {s : St}
    (h : (step fuel t s).2.ok = true) : s.ok = true := by
  cases hs : s.ok
  · rw [(step_sub fuel t s).okl hs] at h
    cases h
  · rfl

/-- The elements dependArray visits: members of the list, and recursively
members of nested arrays. -/
inductive Reach (s : St) : List Val → Nat → Prop where
  | here {vs : List Val} {y : Nat} : Val.ref y ∈ vs → Reach s vs y
  | nested {vs : List Val} {z y : Nat} {cz : Container} :
      Val.ref z ∈ vs → s.conts[z]? = some cz → cz.kind = .arr →
      Reach s cz.elems y → Reach s vs y

theorem Reach_sub {s s' : St} (hsub : Sub s s') :
    ∀ {vs : List Val} {y : Nat}, Reach s vs y → Reach s' vs y := by
  intro vs y h
  induction h with
  | here hm => exact .here hm
  | nested hm hz hk _ ih =>
    obtain ⟨cz', hz', hk', he', _, _, _, _⟩ := hsub.cont _ _ hz
    exact .nested hm hz' (by rw [hk']; exact hk) (by rw [he']; exact ih)

theorem Reach_cons {s : St} {e : Val} {rest : List Val} {y : Nat}
    (h : Reach s (e :: rest) y) :
    (e = .ref y) ∨
    (∃ z cz, e = .ref z ∧ s.conts[z]? = some cz ∧ cz.kind = .arr ∧
      Reach s cz.elems y) ∨
    Reach s rest y := by
  cases h with
  | here hm =>
    rcases List.mem_cons.mp hm with h1 | h2
    · exact .inl h1.symm
    · exact .inr (.inr (.here h2))
  | nested hm hz hk hr =>
    rcases List.mem_cons.mp hm with h1 | h2
    · exact .inr (.inl ⟨_, _, h1.symm, hz, hk, hr⟩)
    · exact .inr (.inr (.nested h2 hz hk hr))

/-- dependArray subscribes the active Computation to the Dep of every
observed element reachable through nested arrays, provided the traversal
completed (the ok flag survives; on cyclic arrays the source recursion does
not terminate and the flag is cleared). -/
theorem depArr_reach : ∀ (fuel : Nat) (vs : List Val) (s : St)
    (w y oy : Nat) (ob : ObData),
    s.target = some w →
    (step fuel (.depArr vs) s).2.ok = true →
    Reach s vs y →
    (∃ cy, s.conts[y]? = some cy ∧ cy.obId = some oy) →
    s.obs[oy]? = some ob →
    ob.depId < s.deps.length →
    w ∈ subsAt (step fuel (.depArr vs) s).2 ob.depId := by
  intro fuel0
  induction fuel0 with
  | zero =>
    intro vs s w y oy ob ht hok hre hcy hob hd
    simp [step, failSt] at hok
  | succ fuel ih =>
    intro vs s w y oy ob ht hok hre hcy hob hd
    cases vs with
    | nil =>
      cases hre with
      | here hm => cases hm
      | nested hm _ _ _ => cases hm
    | cons e rest =>
      obtain ⟨cy, hcy1, hoy⟩ := hcy
      simp only [step] at hok ⊢
      have tail : ∀ (s2 : St), Sub s s2 →
          (step fuel (.depArr rest) s2).2.ok = true →
          Reach s rest y →
          w ∈ subsAt (step fuel (.depArr rest) s2).2 ob.depId := by
        intro s2 hsub hok2 hre2
        obtain ⟨ob2, hob2, hdep2, _⟩ := hsub.obsd oy ob hob
        obtain ⟨cy2, hcy2, _, _, _, _, _, hobp⟩ := hsub.cont y cy hcy1
        rw [← hdep2]
        exact ih rest s2 w y oy ob2 (by rw [hsub.tgt]; exact ht) hok2
          (Reach_sub hsub hre2) ⟨cy2, hcy2, hobp _ hoy⟩ hob2
          (by rw [hdep2]; exact lt_of_lt_of_le hd hsub.dlen)
      rcases Reach_cons hre with hA | ⟨z, cz, hB, hz, hkz, hrz⟩ | hC
      · -- the head element is the observed container y itself
        subst hA
        have hvo : valObId s (.ref y) = some oy := by
          simp [valObId, getCont, hcy1, hoy]
        have hdo : obsDepId s oy = ob.depId := obsDepId_eq hob
        simp only [ht, hvo, hdo] at hok ⊢
        have hmem1 : w ∈ subsAt (addDepM s w ob.depId) ob.depId :=
          mem_subsAt_addDepM s w ob.depId hd
        obtain ⟨cy1, hcy1', _, _, _, _, _, _⟩ :=
          (sub_addDepM s w ob.depId).cont y cy hcy1
        simp only [show getCont (addDepM s w ob.depId) y = some cy1 from hcy1']
          at hok ⊢
        by_cases hkd : cy1.kind = CKind.arr
        · rw [if_pos hkd] at hok ⊢
          exact subsAt_step_mono (subsAt_step_mono hmem1)
        · rw [if_neg hkd] at hok ⊢
          exact subsAt_step_mono hmem1
      · -- the head element is an array through which y is reachable
        subst hB
        cases hvo : valObId s (.ref z) with
        | none =>
          simp only [ht, hvo] at hok ⊢
          obtain ⟨cz1, hz1, hk1, he1, _, _, _, _⟩ := (Sub.rfl s).cont z cz hz
          simp only [show getCont s z = some cz1 from hz1] at hok ⊢
          rw [if_pos (by rw [hk1]; exact hkz)] at hok ⊢
          have hok2 : (step fuel (.depArr cz1.elems) s).2.ok = true :=
            step_ok hok
          have hmem2 : w ∈ subsAt (step fuel (.depArr cz1.elems) s).2 ob.depId := by
            refine ih cz1.elems s w y oy ob ht hok2 ?_ ⟨cy, hcy1, hoy⟩ hob hd
            rw [he1]
            exact hrz
          exact subsAt_step_mono hmem2
        | some o2 =>
          simp only [ht, hvo] at hok ⊢
          have hsub1 := sub_addDepM s w (obsDepId s o2)
          obtain ⟨cz1, hz1, hk1, he1, _, _, _, _⟩ := hsub1.cont z cz hz
          simp only [show getCont (addDepM s w (obsDepId s o2)) z = some cz1
            from hz1] at hok ⊢
          rw [if_pos (by rw [hk1]; exact hkz)] at hok ⊢
          have hok2 : (step fuel (.depArr cz1.elems)
              (addDepM s w (obsDepId s o2))).2.ok = true := step_ok hok
          obtain ⟨ob1, hob1, hdep1, _⟩ := hsub1.obsd oy ob hob
          obtain ⟨cy1, hcy1', _, _, _, _, _, hobp1⟩ := hsub1.cont y cy hcy1
          have hmem2 : w ∈ subsAt (step fuel (.depArr cz1.elems)
              (addDepM s w (obsDepId s o2))).2 ob1.depId := by
            refine ih cz1.elems _ w y oy ob1 (by rw [hsub1.tgt]; exact ht) hok2
              ?_ ⟨cy1, hcy1', hobp1 _ hoy⟩ hob1
              (by rw [hdep1]; exact lt_of_lt_of_le hd hsub1.dlen)
            rw [he1]
            exact Reach_sub hsub1 hrz
          rw [hdep1] at hmem2
          exact subsAt_step_mono hmem2
      · -- y is reachable through the remaining elements
        cases hvo : valObId s e with
        | none =>
          simp only [ht, hvo] at hok ⊢
          cases e with
          | ref x =>
            cases hgc : getCont s x with
            | none =>
              simp only [hgc] at hok ⊢
              exact tail s (Sub.rfl s) hok hC
            | some cx =>
              simp only [hgc] at hok ⊢
              by_cases hkd : cx.kind = CKind.arr
              · rw [if_pos hkd] at hok ⊢
                exact tail _ (step_sub fuel (.depArr cx.elems) s) hok hC
              · rw [if_neg hkd] at hok ⊢
                exact tail s (Sub.rfl s) hok hC
          | undef => exact tail s (Sub.rfl s) hok hC
          | prim n => exact tail s (Sub.rfl s) hok hC
          | nan => exact tail s (Sub.rfl s) hok hC
        | some o2 =>
          simp only [ht, hvo] at hok ⊢
          cases e with
          | ref x =>
            cases hgc : getCont (addDepM s w (obsDepId s o2)) x with
            | none =>
              simp only [hgc] at hok ⊢
              exact tail _ (sub_addDepM s w (obsDepId s o2)) hok hC
            | some cx =>
              simp only [hgc] at hok ⊢
              by_cases hkd : cx.kind = CKind.arr
              · rw [if_pos hkd] at hok ⊢
                exact tail _ ((sub_addDepM s w (obsDepId s o2)).trans
                  (step_sub fuel (.depArr cx.elems) _)) hok hC
              · rw [if_neg hkd] at hok ⊢
                exact tail _ (sub_addDepM s w (obsDepId s o2)) hok hC
          | undef => exact tail _ (sub_addDepM s w (obsDepId s o2)) hok hC
          | prim n => exact tail _ (sub_addDepM s w (obsDepId s o2)) hok hC
          | nan => exact tail _ (sub_addDepM s w (obsDepId s o2)) hok hC

/-- A property read through a single-closure slot with an active target:
the getter tracks exactly one level. -/
theorem getProp_nochain (f : Nat) (s : St) (r : Nat) (k : String)
    (sl : PropSlot) (cl : ReactClos) (w : Nat)
    (hs : getSlot s r k = some sl) (hr : sl.reactive = some cl)
    (hb : sl.below = []) (ht : s.target = some w) :
    getProp (f + 1) s r k =
      (slotValue sl,
        trackOne s w cl (slotValue sl)
          (fun st es => (step f (.depArr es) st).2)) := by
  simp only [getProp, step, hs, hr, ht, hb, List.isEmpty_nil, if_true]

/-- Claim C4: reading a reactive property while no Computation is active
subscribes nothing — the getter returns the value with the state untouched.
While a Computation w is active, the getter subscribes w to the property's
Dep; when the closure's childOb (the wrapper of the current value) is set,
also to that wrapper's Dep; and when the value is an array, recursively to
the Dep of every observed element reachable through nested arrays, provided
the traversal completed (ok still true — on cyclic arrays the source's
dependArray does not terminate). -/
theorem C4_getter_tracking (fuel : Nat) (s : St) (r : Nat) (k : String)
    (sl : PropSlot) (cl : ReactClos)
    (hs : getSlot s r k = some sl) (hr : sl.reactive = some cl)
    (hb : sl.below = []) (hf : 0 < fuel) :
    (s.target = none → getProp fuel s r k = (slotValue sl, s)) ∧
    (∀ w, s.target = some w →
      (cl.depId < s.deps.length →
        w ∈ subsAt (getProp fuel s r k).2 cl.depId) ∧
      (∀ co obc, cl.childOb = some co → s.obs[co]? = some obc →
        obc.depId < s.deps.length →
        w ∈ subsAt (getProp fuel s r k).2 obc.depId) ∧
      (∀ co x cx y cy oy ob, cl.childOb = some co →
        slotValue sl = .ref x → s.conts[x]? = some cx → cx.kind = .arr →
        Reach s cx.elems y →
        s.conts[y]? = some cy → cy.obId = some oy →
        s.obs[oy]? = some ob → ob.depId < s.deps.length →
        (getProp fuel s r k).2.ok = true →
        w ∈ subsAt (getProp fuel s r k).2 ob.depId)) := by
  rcases Nat.exists_eq_succ_of_ne_zero (show fuel ≠ 0 by omega) with ⟨f, rfl⟩
  constructor
  · intro ht
    simp [getProp, step, hs, hr, ht]
  · intro w ht
    refine ⟨?_, ?_, ?_⟩
    · intro hd
      have hmem1 : w ∈ subsAt (addDepM s w cl.depId) cl.depId :=
        mem_subsAt_addDepM s w cl.depId hd
      rw [getProp_nochain f s r k sl cl w hs hr hb ht]
      unfold trackOne
      cases hco : cl.childOb with
      | none => exact hmem1
      | some co =>
        have hmem3 : w ∈ subsAt (addDepM (addDepM s w cl.depId) w
            (obsDepId (addDepM s w cl.depId) co)) cl.depId :=
          (sub_addDepM _ w _).subsm _ _ hmem1
        cases hv : slotValue sl with
        | ref x =>
          cases hgc : getCont (addDepM (addDepM s w cl.depId) w
              (obsDepId (addDepM s w cl.depId) co)) x with
          | none => simp only [hv, hgc]; exact hmem3
          | some cx =>
            simp only [hv, hgc]
            by_cases hkd : cx.kind = CKind.arr
            · rw [if_pos hkd]
              exact subsAt_step_mono hmem3
            · rw [if_neg hkd]
              exact hmem3
        | undef => exact hmem3
        | prim n => exact hmem3
        | nan => exact hmem3
    · intro co obc hco hobc hdlt
      have hobc1 : (addDepM s w cl.depId).obs[co]? = some obc := by
        rw [obs_addDepM]
        exact hobc
      have hdo : obsDepId (addDepM s w cl.depId) co = obc.depId :=
        obsDepId_eq hobc1
      have hdlt1 : obc.depId < (addDepM s w cl.depId).deps.length :=
        lt_of_lt_of_le hdlt (sub_addDepM s w cl.depId).dlen
      have hmem3 : w ∈ subsAt (addDepM (addDepM s w cl.depId) w
          (obsDepId (addDepM s w cl.depId) co)) obc.depId := by
        rw [hdo]
        exact mem_subsAt_addDepM _ w _ hdlt1
      rw [getProp_nochain f s r k sl cl w hs hr hb ht]
      unfold trackOne
      simp only [hco]
      cases hv : slotValue sl with
      | ref x =>
        cases hgc : getCont (addDepM (addDepM s w cl.depId) w
            (obsDepId (addDepM s w cl.depId) co)) x with
        | none => simp only [hv, hgc]; exact hmem3
        | some cx =>
          simp only [hv, hgc]
          by_cases hkd : cx.kind = CKind.arr
          · rw [if_pos hkd]
            exact subsAt_step_mono hmem3
          · rw [if_neg hkd]
            exact hmem3
      | undef => exact hmem3
      | prim n => exact hmem3
      | nan => exact hmem3
    · intro co x cx y cy oy ob hco hv hx hkx hre hy hoy hob hdlt hok
      have hsub3 : Sub s (addDepM (addDepM s w cl.depId) w
          (obsDepId (addDepM s w cl.depId) co)) :=
        (sub_addDepM s w cl.depId).trans (sub_addDepM _ w _)
      obtain ⟨cx3, hx3, hk3, he3, _, _, _, _⟩ := hsub3.cont x cx hx
      obtain ⟨cy3, hy3, _, _, _, _, _, hobp3⟩ := hsub3.cont y cy hy
      obtain ⟨ob3, hob3, hdep3, _⟩ := hsub3.obsd oy ob hob
      rw [getProp_nochain f s r k sl cl w hs hr hb ht] at hok ⊢
      unfold trackOne at hok ⊢
      simp only [hco, hv,
        show getCont (addDepM (addDepM s w cl.depId) w
          (obsDepId (addDepM s w cl.depId) co)) x = some cx3 from hx3] at hok ⊢
      rw [if_pos (by rw [hk3]; exact hkx)] at hok ⊢
      have hmem := depArr_reach f cx3.elems _ w y oy ob3
        (by rw [hsub3.tgt]; exact ht) hok
        (by rw [he3]; exact Reach_sub hsub3 hre)
        ⟨cy3, hy3, hobp3 _ hoy⟩ hob3
        (by rw [hdep3]; exact lt_of_lt_of_le hdlt hsub3.dlen)
      rw [hdep3] at hmem
      exact hmem

/-- A reactive property a holding an observed array whose element is an
observed object, read while Computation 7 is active: the concrete input of
the C4 witness. -/
def st4 : St :=
  { conts :=
      [{ kind := .plainObj, obId := some 0,
         fields :=
           [("a", { val := .ref 1,
                    reactive := some ⟨2, some 1, false, false⟩ })] },
       { kind := .arr, obId := some 1, elems := [.ref 2] },
       { kind := .plainObj, obId := some 2 }],
    obs :=
      [{ valueRef := 0, depId := 0 }, { valueRef := 1, depId := 1 },
       { valueRef := 2, depId := 3 }],
    deps := [{ subs := [] }, { subs := [] }, { subs := [] }, { subs := [] }],
    target := some 7 }

/-- Witness for C4: reading a subscribes the active Computation 7 to the
property's Dep 2, to the array wrapper's Dep 1, and to the Dep 3 of the
observed element of the array. -/
theorem C4_getter_tracking_witness :
    7 ∈ subsAt (getProp 6 st4 0 "a").2 2 ∧
    7 ∈ subsAt (getProp 6 st4 0 "a").2 1 ∧
    7 ∈ subsAt (getProp 6 st4 0 "a").2 3 := by
  have h := C4_getter_tracking 6 st4 0 "a"
    { val := .ref 1, reactive := some ⟨2, some 1, false, false⟩ }
    ⟨2, some 1, false, false⟩ (by decide) (by decide) (by decide) (by decide)
  obtain ⟨-, h2⟩ := h
  obtain ⟨p1, p2, p3⟩ := h2 7 (by decide)
  refine ⟨p1 (by decide), ?_, ?_⟩
  · exact p2 1 { valueRef := 1, depId := 1 } (by decide) (by decide) (by decide)
  · exact p3 1 1 { kind := .arr, obId := some 1, elems := [.ref 2] } 2
      { kind := .plainObj, obId := some 2 } 2 { valueRef := 2, depId := 3 }
      (by decide) (by decide) (by decide) (by decide)
      (Reach.here (by decide)) (by decide) (by decide) (by decide) (by decide)
      (by decide)

end Vue
